import Mathlib

/-!
# EchoTool: a verification development

A shallow embedding of the echo client, the echo server and the network-error
classification of `attilabuti/echotool` (Go), followed by theorems about them.

Conventions of the embedding.

* Go `error` values are modelled by `GoError`: a chain of wrappers
  (`*net.OpError`, `*os.SyscallError`, `fmt.Errorf` with `%w`) ending in a
  `Cause`, the error whose `Unwrap` is nil. These are the errors the `net`
  package returns; an error that wraps several errors (`errors.Join`) is not
  among them.
* `float64` arithmetic is modelled exactly, by the rational value of each
  result rounded to the nearest `float64`, ties to even.
* The numeric values of the `syscall` errno constants are fixed by the Go
  standard library per platform; they are a parameter (`Errnos`).
* I/O calls (`Write`, `Read`, `time.Now`, the ticker, the channels) are
  replaced by the results they return, supplied as explicit inputs.
* Printing is modelled by returning the printed lines.
-/

namespace EchoTool

/-! ## Go errors -/

/-- Values of the `syscall.Errno` constants used by the program, together with
the text `syscall.Errno.Error` gives for a number. -/
structure Errnos where
  EACCES : Nat
  EAGAIN : Nat
  EWOULDBLOCK : Nat
  EMSGSIZE : Nat
  EADDRINUSE : Nat
  ENETDOWN : Nat
  ENETUNREACH : Nat
  ENETRESET : Nat
  ECONNABORTED : Nat
  ECONNRESET : Nat
  ETIMEDOUT : Nat
  ECONNREFUSED : Nat
  EHOSTDOWN : Nat
  EHOSTUNREACH : Nat
  strerror : Nat → String

/-- The errno constants of `syscall` on linux/amd64. -/
def linux : Errnos where
  EACCES := 13
  EAGAIN := 11
  EWOULDBLOCK := 11
  EMSGSIZE := 90
  EADDRINUSE := 98
  ENETDOWN := 100
  ENETUNREACH := 101
  ENETRESET := 102
  ECONNABORTED := 103
  ECONNRESET := 104
  ETIMEDOUT := 110
  ECONNREFUSED := 111
  EHOSTDOWN := 112
  EHOSTUNREACH := 113
  strerror := fun n => "errno " ++ toString n

/-- The errno constants of `syscall` on darwin. -/
def darwin : Errnos where
  EACCES := 13
  EAGAIN := 35
  EWOULDBLOCK := 35
  EMSGSIZE := 40
  EADDRINUSE := 48
  ENETDOWN := 50
  ENETUNREACH := 51
  ENETRESET := 52
  ECONNABORTED := 53
  ECONNRESET := 54
  ETIMEDOUT := 60
  ECONNREFUSED := 61
  EHOSTDOWN := 64
  EHOSTUNREACH := 65
  strerror := fun n => "errno " ++ toString n

/-- An error whose `Unwrap` is nil, by dynamic type. -/
inductive Cause where
  /-- A `*net.DNSError` with its `Name`, `IsNotFound` and `IsTimeout` fields. -/
  | dnsError (name : String) (isNotFound : Bool) (isTimeout : Bool)
  /-- A `syscall.Errno`. -/
  | errno (n : Nat)
  /-- The value `net.ErrClosed`. -/
  | errClosed
  /-- Any other implementation of `net.Error`, with its text and what its
  `Timeout` method returns (`os.ErrDeadlineExceeded` is `netError _ true`). -/
  | netError (msg : String) (timeout : Bool)
  /-- The value `io.EOF`. -/
  | eof
  /-- Any other error, with its text. -/
  | other (msg : String)
  deriving DecidableEq, Repr

/-- A Go `error`: a cause under a chain of wrappers. -/
inductive GoError where
  | cause (c : Cause)
  /-- A `*net.OpError` around `err`. -/
  | opError (op : String) (err : GoError)
  /-- An `*os.SyscallError` around `err`. -/
  | syscallError (call : String) (err : GoError)
  /-- The result of `fmt.Errorf` with one `%w` verb around `err`. -/
  | wrapError (msg : String) (err : GoError)
  deriving DecidableEq, Repr

/-- `errors.Unwrap`. -/
def GoError.unwrap : GoError → Option GoError
  | .cause _ => none
  | .opError _ e => some e
  | .syscallError _ e => some e
  | .wrapError _ e => some e

/-- The loop `for errors.Unwrap(err) != nil { err = errors.Unwrap(err) }`:
the error it leaves in `err`. -/
def GoError.innermost : GoError → Cause
  | .cause c => c
  | .opError _ e => e.innermost
  | .syscallError _ e => e.innermost
  | .wrapError _ e => e.innermost

/-- `errors.Is(err, net.ErrClosed)`: some error of the chain is `net.ErrClosed`.
No wrapper type is `net.ErrClosed` or has an `Is` method. -/
def GoError.isErrClosed : GoError → Bool
  | .cause c => decide (c = .errClosed)
  | .opError _ e => e.isErrClosed
  | .syscallError _ e => e.isErrClosed
  | .wrapError _ e => e.isErrClosed

/-- `syscall.Errno.Timeout`. -/
def Errnos.errnoTimeout (P : Errnos) (n : Nat) : Bool :=
  n == P.EAGAIN || n == P.EWOULDBLOCK || n == P.ETIMEDOUT

/-- What the `Timeout` method of a cause returns; `false` where the type has no
such method. -/
def Cause.timeout (P : Errnos) : Cause → Bool
  | .dnsError _ _ isTimeout => isTimeout
  | .errno n => P.errnoTimeout n
  | .errClosed => false
  | .netError _ timeout => timeout
  | .eof => false
  | .other _ => false

/-- Whether a cause implements `net.Error`. -/
def Cause.isNetError : Cause → Bool
  | .dnsError _ _ _ => true
  | .errno _ => true
  | .errClosed => true
  | .netError _ _ => true
  | .eof => false
  | .other _ => false

/-- Whether an error is a `net.Error` whose `Timeout` method returns true:
`*net.OpError` and `*os.SyscallError` ask the error they hold, the wrapper of
`fmt.Errorf` has no `Timeout` method. -/
def GoError.isTimeout (P : Errnos) : GoError → Bool
  | .cause c => c.isNetError && c.timeout P
  | .opError _ e => e.isTimeout P
  | .syscallError _ e => e.isTimeout P
  | .wrapError _ _ => false

/-- The text of a cause (`Error()`). -/
def Cause.error (P : Errnos) : Cause → String
  | .dnsError name _ _ => "lookup " ++ name
  | .errno n => P.strerror n
  | .errClosed => "use of closed network connection"
  | .netError msg _ => msg
  | .eof => "EOF"
  | .other msg => msg

/-- The text of an error (`Error()`); a wrapper puts its own text first. -/
def GoError.error (P : Errnos) : GoError → String
  | .cause c => c.error P
  | .opError op e => op ++ ": " ++ e.error P
  | .syscallError call e => call ++ ": " ++ e.error P
  | .wrapError msg e => msg ++ ": " ++ e.error P

/-! ## network.go -/

/-- A row of the table: `networkError`. -/
structure networkError where
  errno : Nat
  errnoWin : Nat
  message : String
  deriving DecidableEq, Repr

/-- The table `networkErrors`. -/
def networkErrors (P : Errnos) : List networkError :=
  [ ⟨P.EACCES, 10013, "Permission denied"⟩,
    ⟨P.EWOULDBLOCK, 10035, "Resource temporarily unavailable"⟩,
    ⟨P.EMSGSIZE, 10040, "Message too long"⟩,
    ⟨P.EADDRINUSE, 10048, "Address already in use"⟩,
    ⟨P.ENETDOWN, 10050, "Network is down"⟩,
    ⟨P.ENETUNREACH, 10051, "Network is unreachable"⟩,
    ⟨P.ENETRESET, 10052, "Network dropped connection on reset"⟩,
    ⟨P.ECONNABORTED, 10053, "Software caused connection abort"⟩,
    ⟨P.ECONNRESET, 10054, "Connection reset by peer"⟩,
    ⟨P.ETIMEDOUT, 10060, "Connection timed out"⟩,
    ⟨P.ECONNREFUSED, 10061, "Connection refused"⟩,
    ⟨P.EHOSTDOWN, 10064, "Host is down"⟩,
    ⟨P.EHOSTUNREACH, 10065, "No route to host"⟩ ]

/-- The loop over the table in `printNetworkError`: the message of the first
row one of whose two codes is `cause`, the empty string when there is none. -/
def lookupErrno (cause : Nat) : List networkError → String
  | [] => ""
  | v :: rest =>
    if v.errnoWin = cause ∨ v.errno = cause then v.message else lookupErrno cause rest

/-- The value of `errMsg` when `printNetworkError` prints it, for a non-nil
error. -/
def errMsg (P : Errnos) (err : GoError) : String :=
  let msg : String :=
    match err.innermost with
    | .dnsError name true _ => "Host not found: " ++ name
    | .errno cause => lookupErrno cause (networkErrors P)
    | c =>
      if c.isNetError then
        if c.timeout P then "Connection timed out"
        else if (GoError.cause c).isErrClosed then "Connection closed"
        else ""
      else ""
  if msg.length = 0 then "Unknown network error: " ++ err.innermost.error P else msg

/-- The lines `printNetworkError` prints. -/
def printNetworkError (P : Errnos) (err : Option GoError) (debug : Bool) : List String :=
  match err with
  | none => []
  | some e => errMsg P e :: (if debug then ["Error: " ++ e.error P] else [])

/-- The function `isConnectionReset`. -/
def isConnectionReset (P : Errnos) (err : GoError) : Bool :=
  match err.innermost with
  | .errno errno => 10054 == errno || P.ECONNRESET == errno
  | _ => false

/-- The test `errors.Is(err, net.ErrClosed) || isConnectionReset(err)` that
ends the loops of the client and of the server. -/
def isClosedOrReset (P : Errnos) (err : GoError) : Bool :=
  err.isErrClosed || isConnectionReset P err

/-! ## float64 -/

/-- Reduction of an integer to the range of `int64` (two's complement). -/
def wrapInt64 (x : Int) : Int := (x + 2 ^ 63) % 2 ^ 64 - 2 ^ 63

namespace F64

/-- The integer nearest to `y`, the even one of the two when `y` is halfway. -/
def roundHalfEven (y : ℚ) : ℤ :=
  if y - ⌊y⌋ < 1 / 2 then ⌊y⌋
  else if 1 / 2 < y - ⌊y⌋ then ⌊y⌋ + 1
  else if ⌊y⌋ % 2 = 0 then ⌊y⌋ else ⌊y⌋ + 1

/-- Rounding of an exact result to `float64`: to the nearest number with a
53-bit significand, ties to even. A `float64` is represented by its value.
The exponent is not bounded: the magnitudes that occur (quotients and
hundredfold multiples of 64-bit integers) are far inside the normal range. -/
def round (x : ℚ) : ℚ :=
  if x = 0 then 0
  else roundHalfEven (x / 2 ^ (Int.log 2 |x| - 52)) * 2 ^ (Int.log 2 |x| - 52)

/-- The conversion `float64(i)` of an integer. -/
def ofInt (i : Int) : ℚ := round i

/-- The `float64` quotient `x / y`, for `y` not zero. -/
def div (x y : ℚ) : ℚ := round (x / y)

/-- The `float64` product `x * y`. -/
def mul (x y : ℚ) : ℚ := round (x * y)

/-- The function `math.Floor`; its result is exact. -/
def floor (x : ℚ) : ℚ := (⌊x⌋ : ℤ)

end F64

/-! ## client.go -/

/-- The `stat` field of `client`. The three counters are of type `int`; each
grows by one at most once per timer tick, so a run would need `2 ^ 63` ticks to
overflow them, and they are not reduced modulo `2 ^ 64`. -/
structure Stat where
  addr : String
  times : List Int
  sent : Int
  received : Int
  corrupted : Int
  deriving DecidableEq, Repr

/-- The struct `reply`; `stop` is its field `end`. -/
structure reply where
  err : Option GoError := none
  start : Int := 0
  stop : Int := 0
  data : List UInt8 := []
  len : Nat := 0

/-- The struct `config`; the nested fields `host.local`, `port.remote`,
`addr.localUDP` and so on are `hostLocal`, `portRemote`, `addrLocalUDP`.
Durations are in nanoseconds, addresses are given by their text, and the
defaults are the zero values of `config{}`. -/
structure config where
  hostLocal : String := ""
  hostRemote : String := ""
  portLocal : String := ""
  portRemote : String := ""
  protocol : String := ""
  serverMode : Bool := false
  count : Int := 0
  infinite : Bool := false
  timeout : Int := 0
  deadline : Int := 0
  echoPeriod : Int := 0
  pattern : List UInt8 := []
  debug : Bool := false
  addrLocal : Option String := none
  addrLocalUDP : Option String := none
  addrRemote : String := ""
  deriving DecidableEq, Repr

/-- What the calls of one `sendEcho` return: the error of `conn.Write`, the
clock after the write, the result of `conn.Read` (an error, or the bytes the
peer delivered), and the clock after the read. -/
structure Exchange where
  write : Option GoError
  start : Int
  read : Except GoError (List UInt8)
  stop : Int

/-- The buffer `make([]byte, 4096)`. -/
def newBuf : List UInt8 := List.replicate 4096 0

/-- The effect of a successful `conn.Read(buf)` when the peer delivered `got`:
the count `n` it returns and the buffer afterwards. At most `len(buf)` bytes
are taken. -/
def readInto (buf got : List UInt8) : Nat × List UInt8 :=
  let n := min got.length buf.length
  (n, got.take n ++ buf.drop n)

/-- The method `printReply`: the new statistics and the lines printed. -/
def printReply (P : Errnos) (c : config) (s : Stat) (r : reply) : Stat × List String :=
  match r.err with
  | some e => (s, printNetworkError P (some e) c.debug)
  | none =>
    let echoTime := wrapInt64 (r.stop - r.start)
    let s1 : Stat := { s with times := s.times ++ [echoTime] }
    if ¬ (c.pattern = r.data.take r.len) then
      ({ s1 with corrupted := s1.corrupted + 1 },
        ["Reply from " ++ s.addr ++ ", time " ++ toString echoTime ++ " ms, " ++ "CORRUPT"])
    else
      (s1, ["Reply from " ++ s.addr ++ ", time " ++ toString echoTime ++ " ms, " ++ "OK"])

/-- The method `sendEcho`: the new statistics, the boolean it returns and the
lines printed. -/
def sendEcho (P : Errnos) (c : config) (s : Stat) (x : Exchange) : Stat × Bool × List String :=
  let s : Stat := { s with sent := s.sent + 1 }
  let buf := newBuf
  match x.write with
  | some err =>
    let (s, out) := printReply P c s { err := some err }
    (s, err.isErrClosed || isConnectionReset P err, out)
  | none =>
    let start := x.start
    match x.read with
    | .error err =>
      if err = .cause .eof then
        let (s, out) := printReply P c s { err := some (.cause .errClosed) }
        (s, true, out)
      else
        let (s, out) := printReply P c s { err := some err }
        (s, err.isErrClosed || isConnectionReset P err, out)
    | .ok got =>
      let (n, buf) := readInto buf got
      let stop := x.stop
      let s : Stat := { s with received := s.received + 1 }
      let (s, out) := printReply P c s { start := start, stop := stop, data := buf, len := n }
      (s, false, out)

/-- What the `select` of `startEcho` receives: a value on `tickerDone`, or a
tick, given with the results of the calls `sendEcho` would make. -/
inductive Event where
  | tickerDone
  | tick (x : Exchange)

/-- The state in which `startEcho` is left by a sequence of events. -/
structure Run where
  stat : Stat
  /-- Whether `startEcho` has returned (it is blocked in `select` otherwise). -/
  returned : Bool
  /-- The events received. -/
  consumed : Nat
  out : List String

/-- The `for` loop of `startEcho`. -/
def startEcho.loop (P : Errnos) (c : config) (counter : Int) (s : Stat) (consumed : Nat)
    (out : List String) : List Event → Run
  | [] => ⟨s, false, consumed, out⟩
  | .tickerDone :: _ => ⟨s, true, consumed + 1, out⟩
  | .tick x :: rest =>
    if ¬ c.infinite ∧ counter = 0 then ⟨s, true, consumed + 1, out⟩
    else
      let counter := if ¬ c.infinite then counter - 1 else counter
      match sendEcho P c s x with
      | (s, true, o) => ⟨s, true, consumed + 1, out ++ o⟩
      | (s, false, o) => startEcho.loop P c counter s (consumed + 1) (out ++ o) rest

/-- The method `startEcho`. -/
def startEcho (P : Errnos) (c : config) (s : Stat) (events : List Event) : Run :=
  startEcho.loop P c c.count s 0 [] events

/-- One iteration of `for _, v := range t` in `getTimeStat`, on
`(total, min, max)`. -/
def getTimeStat.step (acc : Int × Int × Int) (v : Int) : Int × Int × Int :=
  let total := wrapInt64 (acc.1 + v)
  let min := if acc.2.1 > v then v else acc.2.1
  let max := if acc.2.2 < v then v else acc.2.2
  (total, min, max)

/-- The method `getTimeStat`, on `c.stat.times`: `(min, max, avg)`. -/
def getTimeStat (t : List Int) : Int × Int × ℚ :=
  if t.length = 0 then (0, 0, 0)
  else if t.length = 1 then (t.headD 0, t.headD 0, F64.ofInt (t.headD 0))
  else
    let acc := t.foldl getTimeStat.step (0, t.headD 0, t.headD 0)
    let avg := F64.div (F64.floor (F64.mul (F64.div (F64.ofInt acc.1) (F64.ofInt t.length)) 100)) 100
    (acc.2.1, acc.2.2, avg)

/-! ## server.go -/

/-- The struct `request`. -/
structure request where
  err : Option GoError := none
  addr : String := ""
  data : List UInt8 := []
  timestamp : Int := 0
  deriving DecidableEq, Repr

/-- What a server loop does besides reading: a send on the channel
`s.requests`, a `s.udpConn.WriteTo(data, addr)`, a `conn.Write(data)`. -/
inductive Effect where
  | send (r : request)
  | writeTo (data : List UInt8) (addr : String)
  | write (data : List UInt8)
  deriving DecidableEq, Repr

/-- What the calls of one iteration of `server.udp` return: the result of
`ReadFromUDP` (an error, or the datagram and its source address), the clock,
and the error of `WriteTo`. -/
structure UDPRead where
  result : Except GoError (List UInt8 × String)
  now : Int
  writeErr : Option GoError

/-- The body of the `for` loop of `server.udp`, on the buffer `buf`: what it
does, the buffer afterwards, and whether the loop goes on. -/
def server.udp.iter (buf : List UInt8) (r : UDPRead) : List Effect × List UInt8 × Bool :=
  match r.result with
  | .error err =>
    if err.isErrClosed then ([], buf, false)
    else ([.send { err := some err }], buf, true)
  | .ok (got, addr) =>
    let (n, buf) := readInto buf got
    if n > 0 then
      let e1 : List Effect :=
        [.send { addr := addr, data := buf.take n, timestamp := r.now }, .writeTo (buf.take n) addr]
      match r.writeErr with
      | some err => (e1 ++ [.send { err := some err }], buf, true)
      | none => (e1, buf, true)
    else ([], buf, true)

/-- The `for` loop of `server.udp` over the results of its reads. -/
def server.udp.loop (buf : List UInt8) : List UDPRead → List Effect
  | [] => []
  | r :: rest =>
    match server.udp.iter buf r with
    | (eff, buf, true) => eff ++ server.udp.loop buf rest
    | (eff, _, false) => eff

/-- The method `server.udp`. -/
def server.udp (reads : List UDPRead) : List Effect :=
  server.udp.loop newBuf reads

/-- What the calls of one iteration of `handleTCPConnection` return: the result
of `conn.Read`, the clock, and the error of `conn.Write`. -/
structure TCPRead where
  result : Except GoError (List UInt8)
  now : Int
  writeErr : Option GoError

/-- The body of the `for` loop of `handleTCPConnection`. -/
def server.handleTCPConnection.iter (remoteAddr : String) (buf : List UInt8) (r : TCPRead) :
    List Effect × List UInt8 × Bool :=
  match r.result with
  | .error err =>
    if err = .cause .eof then ([.send { err := some (.cause .errClosed) }], buf, false)
    else ([.send { err := some err }], buf, false)
  | .ok got =>
    let (n, buf) := readInto buf got
    if n = 0 then ([], buf, false)
    else
      let e1 : List Effect :=
        [.send { addr := remoteAddr, data := buf.take n, timestamp := r.now }, .write (buf.take n)]
      match r.writeErr with
      | some err => (e1 ++ [.send { err := some err }], buf, false)
      | none => (e1, buf, true)

/-- The `for` loop of `handleTCPConnection` over the results of its reads. -/
def server.handleTCPConnection.loop (remoteAddr : String) (buf : List UInt8) :
    List TCPRead → List Effect
  | [] => []
  | r :: rest =>
    match server.handleTCPConnection.iter remoteAddr buf r with
    | (eff, buf, true) => eff ++ server.handleTCPConnection.loop remoteAddr buf rest
    | (eff, _, false) => eff

/-- The method `handleTCPConnection`. -/
def server.handleTCPConnection (remoteAddr : String) (reads : List TCPRead) : List Effect :=
  server.handleTCPConnection.loop remoteAddr newBuf reads

/-! ## The function `time.ParseDuration` of the Go standard library

It is not part of the repository; `config.parse` calls it. It is transcribed
from `time/format.go`, on the characters of the string. -/

namespace time

/-- The function `leadingInt`: the leading `[0-9]*` of `s` as a number and the
rest of `s`, or `none` on overflow. -/
def leadingInt (x : Nat) : List Char → Option (Nat × List Char)
  | [] => some (x, [])
  | c :: s =>
    if c < '0' ∨ c > '9' then some (x, c :: s)
    else if x > 2 ^ 63 / 10 then none
    else if x * 10 + (c.toNat - 48) > 2 ^ 63 then none
    else leadingInt (x * 10 + (c.toNat - 48)) s

/-- The function `leadingFraction`: the leading `[0-9]*` of `s` as a number, the
power of ten it is to be divided by, and the rest of `s`; digits are dropped
once the number would overflow. -/
def leadingFraction (x : Nat) (scale : ℚ) (overflow : Bool) : List Char → Nat × ℚ × List Char
  | [] => (x, scale, [])
  | c :: s =>
    if c < '0' ∨ c > '9' then (x, scale, c :: s)
    else if overflow then leadingFraction x scale overflow s
    else if x > (2 ^ 63 - 1) / 10 then leadingFraction x scale true s
    else if x * 10 + (c.toNat - 48) > 2 ^ 63 then leadingFraction x scale true s
    else leadingFraction (x * 10 + (c.toNat - 48)) (F64.mul scale 10) overflow s

/-- The table `unitMap`. -/
def unitMap (u : List Char) : Option Nat :=
  if u = "ns".toList then some 1
  else if u = "us".toList then some 1000
  else if u = "µs".toList then some 1000
  else if u = "μs".toList then some 1000
  else if u = "ms".toList then some 1000000
  else if u = "s".toList then some 1000000000
  else if u = "m".toList then some 60000000000
  else if u = "h".toList then some 3600000000000
  else none

/-- Whether a character ends a unit: `c == '.' || '0' <= c && c <= '9'`. -/
def endsUnit (c : Char) : Bool := c = '.' ∨ ('0' ≤ c ∧ c ≤ '9')

/-- The step `Consume (\.[0-9]*)?` of `ParseDuration` on the rest `s1` of the
string: the fraction `f`, its `scale`, the rest of the string, and whether a
digit was consumed (`post`). -/
def ParseDuration.fraction (s1 : List Char) : Nat × ℚ × List Char × Bool :=
  match s1 with
  | '.' :: s2 =>
    let r := leadingFraction 0 1 false s2
    (r.1, r.2.1, r.2.2, decide (s2.length ≠ r.2.2.length))
  | _ => (0, 1, s1, false)

/-- The arithmetic of one round of `ParseDuration`: the sum `d` so far plus the
integer part `v` and the fraction `f / scale` of the unit `unit`, in `uint64`,
or the text of the error when the duration overflows. -/
def ParseDuration.add (d v f : Nat) (scale : ℚ) (unit : Nat) : Except String Nat :=
  if v > 2 ^ 63 / unit then .error "time: invalid duration"
  else
    let v1 := v * unit
    let v2 :=
      if f > 0 then v1 + (⌊F64.mul (F64.ofInt f) (F64.div (F64.ofInt unit) scale)⌋).toNat
      else v1
    if f > 0 ∧ v2 > 2 ^ 63 then .error "time: invalid duration"
    else
      let d1 := (d + v2) % 2 ^ 64
      if d1 > 2 ^ 63 then .error "time: invalid duration" else .ok d1

/-- The body of the loop `for s != ""` of `ParseDuration`, on the sum `d` so
far and a string `s` that is not empty: the new sum and the rest of the string
after one number and its unit, or the text of the error. -/
def ParseDuration.iter (d : Nat) (s : List Char) : Except String (Nat × List Char) :=
  match s with
  | [] => .error "time: invalid duration"
  | c0 :: _ =>
    if ¬ endsUnit c0 then .error "time: invalid duration"
    else
      match leadingInt 0 s with
      | none => .error "time: invalid duration"
      | some (v, s1) =>
        let hasInt : Bool := s.length ≠ s1.length
        let frac := ParseDuration.fraction s1
        if ¬ hasInt ∧ ¬ frac.2.2.2 then .error "time: invalid duration"
        else
          let u := frac.2.2.1.takeWhile (fun c => ¬ endsUnit c)
          let s4 := frac.2.2.1.dropWhile (fun c => ¬ endsUnit c)
          if u.length = 0 then .error "time: missing unit in duration"
          else
            match unitMap u with
            | none => .error "time: unknown unit in duration"
            | some unit =>
              match ParseDuration.add d v frac.1 frac.2.1 unit with
              | .error e => .error e
              | .ok d1 => .ok (d1, s4)

/-- The loop `for s != ""` of `ParseDuration`, on the sum `d` so far. Each
round consumes at least one character, so `fuel` above the length of `s` is
never used up. -/
def ParseDuration.loop : Nat → Nat → List Char → Except String Nat
  | 0, _, _ => .error "time: invalid duration"
  | fuel + 1, d, s =>
    if s = [] then .ok d
    else
      match ParseDuration.iter d s with
      | .error e => .error e
      | .ok (d1, s4) => ParseDuration.loop fuel d1 s4

/-- The function `time.ParseDuration`: a duration in nanoseconds, or the text
of an error. -/
def ParseDuration (str : String) : Except String Int :=
  let s := str.toList
  let neg : Bool := s.head? = some '-'
  let s := if s.head? = some '-' ∨ s.head? = some '+' then s.tail else s
  if s = ['0'] then .ok 0
  else if s = [] then .error "time: invalid duration"
  else
    match ParseDuration.loop (s.length + 1) 0 s with
    | .error e => .error e
    | .ok d =>
      if neg then .ok (wrapInt64 (-(wrapInt64 d)))
      else if d > 2 ^ 63 - 1 then .error "time: invalid duration"
      else .ok d

end time

/-! ## config.go -/

/-- The struct `cliFlags`. -/
structure cliFlags where
  protocol : String := ""
  remotePort : Int := -1
  localHost : String := ""
  localPort : Int := 0
  serverMode : Bool := false
  count : Int := 5
  pattern : String := ""
  timeout : String := "10s"
  deadline : String := "5s"
  echoPeriod : String := "100ms"
  debug : Bool := false
  version : Bool := false

/-- The function `net.JoinHostPort`: a host with a colon is put in brackets. -/
def JoinHostPort (host port : String) : String :=
  if ':' ∈ host.data then "[" ++ host ++ "]:" ++ port else host ++ ":" ++ port

/-- The function `strings.ToLower`, on ASCII letters; no other character has
a lower case among the letters of `tcp` and `udp`. -/
def ToLower (s : String) : String := String.mk (s.data.map Char.toLower)

/-- The client-only part of `config.parse` (the body of `if !c.serverMode`). -/
def config.parseClient (c : config) (f : cliFlags) (args : List String) : Except String config :=
  if ¬ (args.length > 0 ∧ (args.headD "").length > 0) then
    .error "missing remote host from arguments"
  else
    let c : config := { c with hostRemote := args.headD "" }
    if f.remotePort < 1 ∨ f.remotePort > 65535 then
      if f.remotePort = -1 then .error "missing remote port number"
      else .error ("invalid remote port number: " ++ toString f.remotePort)
    else
      let c : config := { c with portRemote := toString f.remotePort }
      let c : config := { c with addrRemote := JoinHostPort c.hostRemote c.portRemote }
      if ¬ (f.count ≥ 0) then .error "number of echo requests cannot be smaller than 0"
      else
        let c : config := { c with count := f.count }
        let c : config := { c with infinite := if c.count = 0 then true else c.infinite }
        if ¬ (f.echoPeriod.length > 0) then .error "echo period cannot be empty"
        else
          match time.ParseDuration f.echoPeriod with
          | .error e => .error ("echo period: " ++ e)
          | .ok echoPeriod =>
            let c : config := { c with echoPeriod := echoPeriod }
            if ¬ (f.deadline.length > 0) then .error "read/write deadline cannot be empty"
            else
              match time.ParseDuration f.deadline with
              | .error e => .error ("read/write deadline: " ++ e)
              | .ok deadline =>
                let c : config := { c with deadline := deadline }
                if ¬ (f.pattern.length > 0) then .error "pattern cannot be empty"
                else .ok { c with pattern := f.pattern.toUTF8.data.toList }

/-- The method `config.parse`, on a zero `config`: the configuration, or the
text of the error. The functions `net.ResolveTCPAddr` and `net.ResolveUDPAddr`
are the parameter `resolve`, from the network and the address to the resolved
address or the text of an error. -/
def config.parse (resolve : String → String → Except String String) (f : cliFlags)
    (args : List String) : Except String config :=
  let c : config := { debug := f.debug, serverMode := f.serverMode, hostLocal := f.localHost }
  let p := ToLower f.protocol
  if ¬ (p = "tcp" ∨ p = "udp") then
    if p.length = 0 then .error "missing protocol"
    else .error ("invalid protocol: " ++ f.protocol)
  else
    let c : config := { c with protocol := p }
    if f.localPort < 0 ∨ f.localPort > 65535 then
      .error ("invalid local port number: " ++ toString f.localPort)
    else
      let c : config := { c with portLocal := toString f.localPort }
      if ¬ (f.timeout.length > 0) then .error "connection timeout cannot be empty"
      else
        match time.ParseDuration f.timeout with
        | .error e => .error ("connection timeout: " ++ e)
        | .ok timeout =>
          let c : config := { c with timeout := timeout }
          let r :=
            if c.protocol = "tcp" then resolve "tcp" (JoinHostPort c.hostLocal c.portLocal)
            else resolve "udp" (JoinHostPort c.hostLocal c.portLocal)
          match r with
          | .error e => .error ("local address: " ++ e)
          | .ok a =>
            let c : config :=
              { c with
                addrLocalUDP := if c.protocol = "tcp" then c.addrLocalUDP else some a
                addrLocal := some a }
            if ¬ c.serverMode then config.parseClient c f args else .ok c

/-- The function `time.NewTicker` of the Go standard library, as far as its
argument goes: it panics with this text when the duration is not positive. -/
def time.NewTicker (d : Int) : Except String Unit :=
  if d ≤ 0 then .error "non-positive interval for NewTicker" else .ok ()

/-- The method `client.init`, as far as it can fail: it starts the ticker with
`c.config.echoPeriod` before anything is dialled. -/
def client.init (c : config) : Except String Unit :=
  time.NewTicker c.echoPeriod

/-! ## Conditions on the parameters -/

/-- Two rows of the table share no code. -/
def networkError.Apart (a b : networkError) : Prop :=
  a.errnoWin ≠ b.errnoWin ∧ a.errnoWin ≠ b.errno ∧ a.errno ≠ b.errnoWin ∧ a.errno ≠ b.errno

instance : DecidableRel networkError.Apart := fun a b => by
  unfold networkError.Apart
  infer_instance

/-- No two rows of `networkErrors` share a code, as on the platforms of Go. -/
def Errnos.Distinct (P : Errnos) : Prop :=
  (networkErrors P).Pairwise networkError.Apart

instance (P : Errnos) : Decidable P.Distinct := by
  unfold Errnos.Distinct
  infer_instance

/-- The errno constants are those of a platform of Go: no two rows of
`networkErrors` share a code, and `EAGAIN` is not a connection reset. -/
def Errnos.WellFormed (P : Errnos) : Prop :=
  P.Distinct ∧ P.EAGAIN ≠ P.ECONNRESET ∧ P.EAGAIN ≠ 10054

instance (P : Errnos) : Decidable P.WellFormed := by
  unfold Errnos.WellFormed
  infer_instance

/-! ## Iteration of `sendEcho` -/

/-- A sequence of calls of `sendEcho`, each on the statistics left by the one
before: the statistics after the last. -/
def sendEchoes (P : Errnos) (c : config) (s : Stat) : List Exchange → Stat
  | [] => s
  | x :: xs => sendEchoes P c (sendEcho P c s x).1 xs

/-- The invariant of the statistics. -/
def Stat.Inv (s : Stat) : Prop :=
  0 ≤ s.corrupted ∧ s.corrupted ≤ s.received ∧ s.received ≤ s.sent ∧
    (s.times.length : Int) = s.received

/-- The events of a run in which only the ticker fires. -/
def ticks (xs : List Exchange) : List Event := xs.map Event.tick

/-! ## Values of `float64` -/

/-- The numbers a `float64` can hold (exponent range apart): an integer of at
most 53 bits times a power of two. -/
def F64.Rep (x : ℚ) : Prop := ∃ m e : ℤ, |m| ≤ 2 ^ 53 ∧ x = m * (2 : ℚ) ^ e

theorem linux_distinct : linux.Distinct := by decide

theorem darwin_distinct : darwin.Distinct := by decide

theorem linux_wellFormed : linux.WellFormed := by decide

theorem darwin_wellFormed : darwin.WellFormed := by decide

/-- The loop that unwraps an error follows `errors.Unwrap` until it gives nil. -/
theorem innermost_unwrap (e : GoError) :
    (∀ e1, e.unwrap = some e1 → e.innermost = e1.innermost) ∧
      (e.unwrap = none → e = .cause e.innermost) := by
  cases e <;> simp [GoError.unwrap, GoError.innermost]

theorem isErrClosed_iff (e : GoError) : e.isErrClosed = true ↔ e.innermost = .errClosed := by
  induction e with
  | cause c => simp [GoError.isErrClosed, GoError.innermost]
  | opError _ e ih => simpa [GoError.isErrClosed, GoError.innermost] using ih
  | syscallError _ e ih => simpa [GoError.isErrClosed, GoError.innermost] using ih
  | wrapError _ e ih => simpa [GoError.isErrClosed, GoError.innermost] using ih

theorem lookupErrno_mem (table : List networkError) (h : table.Pairwise networkError.Apart)
    (v : networkError) (hv : v ∈ table) :
    lookupErrno v.errno table = v.message ∧ lookupErrno v.errnoWin table = v.message := by
  induction table with
  | nil => simp at hv
  | cons a rest ih =>
    rw [List.pairwise_cons] at h
    rcases List.mem_cons.1 hv with rfl | hmem
    · simp [lookupErrno]
    · obtain ⟨h1, h2, h3, h4⟩ := h.1 v hmem
      have := ih h.2 hmem
      simp [lookupErrno, h1, h2, h3, h4, this]

theorem lookupErrno_cases (n : Nat) (table : List networkError) :
    lookupErrno n table = "" ∨
      ∃ row ∈ table, (row.errnoWin = n ∨ row.errno = n) ∧ lookupErrno n table = row.message := by
  induction table with
  | nil => simp [lookupErrno]
  | cons a rest ih =>
    by_cases h : a.errnoWin = n ∨ a.errno = n
    · right
      exact ⟨a, List.mem_cons_self _ _, h, by simp [lookupErrno, h]⟩
    · rcases ih with h0 | ⟨row, hrow, hm, heq⟩
      · left
        simp [lookupErrno, h, h0]
      · right
        exact ⟨row, List.mem_cons_of_mem _ hrow, hm, by simp [lookupErrno, h, heq]⟩

theorem lookupErrno_none (n : Nat) (table : List networkError)
    (h : ∀ row ∈ table, row.errno ≠ n ∧ row.errnoWin ≠ n) : lookupErrno n table = "" := by
  induction table with
  | nil => simp [lookupErrno]
  | cons a rest ih =>
    have ha := h a (List.mem_cons_self _ _)
    have hr := ih (fun row hrow => h row (List.mem_cons_of_mem _ hrow))
    simp [lookupErrno, ha.1, ha.2, hr]

theorem message_length_ne_zero (P : Errnos) (row : networkError) (h : row ∈ networkErrors P) :
    row.message.length ≠ 0 := by
  simp only [networkErrors, List.mem_cons, List.mem_singleton, List.not_mem_nil, or_false] at h
  rcases h with h | h | h | h | h | h | h | h | h | h | h | h | h <;>
    (subst h; dsimp only; decide)

theorem append_ne_of_head (a b s : String) (c d : Char) (ta tb : List Char)
    (ha : a.data = c :: ta) (hb : b.data = d :: tb) (hcd : c ≠ d) : a ++ s ≠ b := by
  intro h
  have h1 := congrArg String.data h
  rw [String.data_append, ha, hb] at h1
  simp at h1
  exact hcd h1.1

theorem unknown_ne_closed (s : String) : "Unknown network error: " ++ s ≠ "Connection closed" :=
  append_ne_of_head _ _ s 'U' 'C' _ _ rfl rfl (by decide)

theorem unknown_ne_reset (s : String) :
    "Unknown network error: " ++ s ≠ "Connection reset by peer" :=
  append_ne_of_head _ _ s 'U' 'C' _ _ rfl rfl (by decide)

theorem unknown_ne_timedOut (s : String) :
    "Unknown network error: " ++ s ≠ "Connection timed out" :=
  append_ne_of_head _ _ s 'U' 'C' _ _ rfl rfl (by decide)

theorem hostNotFound_ne_closed (s : String) : "Host not found: " ++ s ≠ "Connection closed" :=
  append_ne_of_head _ _ s 'H' 'C' _ _ rfl rfl (by decide)

theorem hostNotFound_ne_reset (s : String) :
    "Host not found: " ++ s ≠ "Connection reset by peer" :=
  append_ne_of_head _ _ s 'H' 'C' _ _ rfl rfl (by decide)

theorem hostNotFound_length (s : String) : ("Host not found: " ++ s).length ≠ 0 := by
  rw [String.length_append]
  have : "Host not found: ".length = 16 := by decide
  omega

/-- The message for an errno: the message of the table, or the fallback. -/
theorem errMsg_errno (P : Errnos) (err : GoError) (n : Nat) (h : err.innermost = .errno n) :
    errMsg P err =
      if (lookupErrno n (networkErrors P)).length = 0 then
        "Unknown network error: " ++ P.strerror n
      else lookupErrno n (networkErrors P) := by
  simp [errMsg, h, Cause.error]

theorem errMsg_errno_row (P : Errnos) (hP : P.Distinct) (row : networkError)
    (hrow : row ∈ networkErrors P) (err : GoError)
    (h : err.innermost = .errno row.errno ∨ err.innermost = .errno row.errnoWin) :
    errMsg P err = row.message := by
  have hl := lookupErrno_mem (networkErrors P) hP row hrow
  have hne := message_length_ne_zero P row hrow
  rcases h with h | h
  · rw [errMsg_errno P err _ h, hl.1, if_neg hne]
  · rw [errMsg_errno P err _ h, hl.2, if_neg hne]

theorem mem_networkErrors_reset (P : Errnos) :
    (⟨P.ECONNRESET, 10054, "Connection reset by peer"⟩ : networkError) ∈ networkErrors P := by
  simp [networkErrors]

/-- A row with the reset message is the reset row, and no row has the closed
message. -/
theorem row_message_cases (P : Errnos) (row : networkError) (hrow : row ∈ networkErrors P) :
    row.message ≠ "Connection closed" ∧
      (row.message = "Connection reset by peer" →
        row.errno = P.ECONNRESET ∧ row.errnoWin = 10054) ∧
      (row.message = "Connection timed out" →
        row.errno = P.ETIMEDOUT ∧ row.errnoWin = 10060) := by
  simp only [networkErrors, List.mem_cons, List.mem_singleton, List.not_mem_nil, or_false] at hrow
  rcases hrow with h | h | h | h | h | h | h | h | h | h | h | h | h <;>
    (subst h; dsimp only; refine ⟨by decide, ?_, ?_⟩ <;> intro h <;>
      first | exact ⟨rfl, rfl⟩ | exact absurd h (by decide))

/-- The errno case of the classification: the message is the reset message
exactly for the two reset codes, and it is never the closed message. -/
theorem errMsg_errno_reset (P : Errnos) (hP : P.Distinct) (err : GoError) (n : Nat)
    (h : err.innermost = .errno n) :
    errMsg P err ≠ "Connection closed" ∧
      (errMsg P err = "Connection reset by peer" ↔ (n = 10054 ∨ n = P.ECONNRESET)) := by
  rcases lookupErrno_cases n (networkErrors P) with h0 | ⟨row, hrow, hm, heq⟩
  · have hmsg : errMsg P err = "Unknown network error: " ++ P.strerror n := by
      rw [errMsg_errno P err n h, h0]; rfl
    refine ⟨by rw [hmsg]; exact unknown_ne_closed _, ?_⟩
    constructor
    · intro hr
      rw [hmsg] at hr
      exact absurd hr (unknown_ne_reset _)
    · intro hn
      have hl := lookupErrno_mem (networkErrors P) hP _ (mem_networkErrors_reset P)
      rcases hn with hn | hn
      · rw [hn, hl.2] at h0
        exact absurd h0 (show "Connection reset by peer" ≠ "" by decide)
      · rw [hn, hl.1] at h0
        exact absurd h0 (show "Connection reset by peer" ≠ "" by decide)
  · have hmsg : errMsg P err = row.message := by
      rw [errMsg_errno P err n h, heq, if_neg (message_length_ne_zero P row hrow)]
    obtain ⟨hc, hr, _⟩ := row_message_cases P row hrow
    refine ⟨by rw [hmsg]; exact hc, ?_⟩
    constructor
    · intro hreset
      rw [hmsg] at hreset
      obtain ⟨h1, h2⟩ := hr hreset
      rcases hm with hm | hm
      · left; omega
      · right; omega
    · intro hn
      have hl := lookupErrno_mem (networkErrors P) hP _ (mem_networkErrors_reset P)
      rw [errMsg_errno P err n h]
      rcases hn with hn | hn
      · rw [hn, hl.2]; rfl
      · rw [hn, hl.1]; rfl

theorem closed_length : "Connection closed".length ≠ 0 := by decide

theorem timedOut_length : "Connection timed out".length ≠ 0 := by decide

theorem errMsg_other (P : Errnos) (err : GoError)
    (h : ∀ n, err.innermost ≠ .errno n) (hc : err.innermost ≠ .errClosed) :
    errMsg P err ≠ "Connection closed" ∧ errMsg P err ≠ "Connection reset by peer" := by
  cases hi : err.innermost with
  | errno n => exact absurd hi (h n)
  | errClosed => exact absurd hi hc
  | dnsError name nf tmo =>
    cases nf
    · cases tmo <;>
        simp [errMsg, hi, Cause.isNetError, Cause.timeout, GoError.isErrClosed, Cause.error,
          unknown_ne_closed, unknown_ne_reset, timedOut_length]
    · have hm : errMsg P err = "Host not found: " ++ name := by
        simp only [errMsg, hi]
        exact if_neg (hostNotFound_length name)
      rw [hm]
      exact ⟨hostNotFound_ne_closed _, hostNotFound_ne_reset _⟩
  | netError msg tmo =>
    cases tmo <;>
      simp [errMsg, hi, Cause.isNetError, Cause.timeout, GoError.isErrClosed, Cause.error,
        unknown_ne_closed, unknown_ne_reset, timedOut_length]
  | eof =>
    simp [errMsg, hi, Cause.isNetError, Cause.timeout, GoError.isErrClosed, Cause.error,
        unknown_ne_closed, unknown_ne_reset]
  | other msg =>
    simp [errMsg, hi, Cause.isNetError, Cause.timeout, GoError.isErrClosed, Cause.error,
        unknown_ne_closed, unknown_ne_reset]

theorem errMsg_errClosed (P : Errnos) (err : GoError) (h : err.innermost = .errClosed) :
    errMsg P err = "Connection closed" := by
  simp [errMsg, h, Cause.isNetError, Cause.timeout, GoError.isErrClosed, closed_length]

theorem isConnectionReset_iff (P : Errnos) (err : GoError) :
    isConnectionReset P err = true ↔
      ∃ n, err.innermost = .errno n ∧ (n = 10054 ∨ n = P.ECONNRESET) := by
  unfold isConnectionReset
  cases hi : err.innermost with
  | errno n =>
    simp only [Bool.or_eq_true, beq_iff_eq, Cause.errno.injEq, exists_eq_left']
    constructor <;> rintro (h | h) <;> simp [h]
  | _ => simp

/-- An error that ends the loops is printed as closed or as reset. -/
theorem errMsg_of_closedOrReset (P : Errnos) (hP : P.Distinct) (err : GoError)
    (h : isClosedOrReset P err = true) :
    errMsg P err = "Connection closed" ∨ errMsg P err = "Connection reset by peer" := by
  unfold isClosedOrReset at h
  rw [Bool.or_eq_true, isErrClosed_iff, isConnectionReset_iff] at h
  rcases h with hc | ⟨n, hn, hr⟩
  · exact Or.inl (errMsg_errClosed P err hc)
  · exact Or.inr ((errMsg_errno_reset P hP err n hn).2.2 hr)

/-- C5. The test that ends the loops of the client and of the server,
`errors.Is(err, net.ErrClosed) || isConnectionReset(err)`, is true for an error
exactly when `printNetworkError` prints "Connection closed" or "Connection reset
by peer" for it, whatever the wrapping of the error; the errno constants are
those of a platform on which no two rows of the table share a code. -/
theorem closedOrReset_iff_classified (P : Errnos) (hP : P.Distinct) (err : GoError) :
    isClosedOrReset P err = true ↔
      (errMsg P err = "Connection closed" ∨ errMsg P err = "Connection reset by peer") := by
  unfold isClosedOrReset
  rw [Bool.or_eq_true, isErrClosed_iff, isConnectionReset_iff]
  by_cases hc : err.innermost = .errClosed
  · simp [hc, errMsg_errClosed P err hc]
  · by_cases hn : ∃ n, err.innermost = .errno n
    · obtain ⟨n, hn⟩ := hn
      have h := errMsg_errno_reset P hP err n hn
      simp [hn, h.1, h.2]
    · have hn1 : ∀ n, err.innermost ≠ .errno n := fun n h => hn ⟨n, h⟩
      have h := errMsg_other P err hn1 hc
      simp [hc, h.1, h.2, hn1]

/-- Witness of C5: on linux, an `ECONNRESET` under `*net.OpError` and
`*os.SyscallError`. -/
theorem closedOrReset_iff_classified_witness :
    isClosedOrReset linux (.opError "read" (.syscallError "read" (.cause (.errno 104)))) = true ↔
      (errMsg linux (.opError "read" (.syscallError "read" (.cause (.errno 104))))
          = "Connection closed" ∨
        errMsg linux (.opError "read" (.syscallError "read" (.cause (.errno 104))))
          = "Connection reset by peer") :=
  closedOrReset_iff_classified linux (by decide) _

/-- C6. For every row `(errno, errnoWin, message)` of `networkErrors`, an error
whose innermost cause is the errno or the code `errnoWin` gets the message of
that row from `printNetworkError`, under any wrapping (so no row is shadowed by
an earlier one); and an errno that is no code of any row gets
"Unknown network error: " followed by its own text. The errno constants are
those of a platform on which no two rows of the table share a code. -/
theorem errno_table_classified (P : Errnos) (hP : P.Distinct) :
    (∀ row ∈ networkErrors P, ∀ (err : GoError) (debug : Bool),
      (err.innermost = .errno row.errno ∨ err.innermost = .errno row.errnoWin) →
        errMsg P err = row.message ∧
          (printNetworkError P (some err) debug).head? = some row.message) ∧
    (∀ (n : Nat) (err : GoError) (debug : Bool), err.innermost = .errno n →
      (∀ row ∈ networkErrors P, row.errno ≠ n ∧ row.errnoWin ≠ n) →
        errMsg P err = "Unknown network error: " ++ P.strerror n ∧
          (printNetworkError P (some err) debug).head?
            = some ("Unknown network error: " ++ P.strerror n)) := by
  constructor
  · intro row hrow err debug h
    have := errMsg_errno_row P hP row hrow err h
    simp [printNetworkError, this]
  · intro n err debug h hnone
    have : errMsg P err = "Unknown network error: " ++ P.strerror n := by
      rw [errMsg_errno P err n h, lookupErrno_none n _ hnone]; rfl
    simp [printNetworkError, this]

/-- Witness of C6: the linux constants satisfy the condition. -/
theorem errno_table_classified_witness :
    (∀ row ∈ networkErrors linux, ∀ (err : GoError) (debug : Bool),
      (err.innermost = .errno row.errno ∨ err.innermost = .errno row.errnoWin) →
        errMsg linux err = row.message ∧
          (printNetworkError linux (some err) debug).head? = some row.message) ∧
    (∀ (n : Nat) (err : GoError) (debug : Bool), err.innermost = .errno n →
      (∀ row ∈ networkErrors linux, row.errno ≠ n ∧ row.errnoWin ≠ n) →
        errMsg linux err = "Unknown network error: " ++ linux.strerror n ∧
          (printNetworkError linux (some err) debug).head?
            = some ("Unknown network error: " ++ linux.strerror n)) :=
  errno_table_classified linux (by decide)

/-! ## The statistics of the client -/

theorem sendEcho_inv (P : Errnos) (c : config) (s : Stat) (x : Exchange) (h : s.Inv) :
    (sendEcho P c s x).1.Inv := by
  obtain ⟨h1, h2, h3, h4⟩ := h
  rcases x with ⟨w, st, r, en⟩
  cases w with
  | some err =>
    simp only [sendEcho, printReply, Stat.Inv]
    exact ⟨h1, h2, by omega, h4⟩
  | none =>
    cases r with
    | error err =>
      simp only [sendEcho, printReply, Stat.Inv]
      split_ifs <;> exact ⟨h1, h2, by dsimp only; omega, h4⟩
    | ok got =>
      simp only [sendEcho, printReply, Stat.Inv]
      split_ifs <;> simp only [List.length_append, List.length_singleton, Nat.cast_add,
        Nat.cast_one] <;> refine ⟨?_, ?_, ?_, ?_⟩ <;> omega

theorem sendEchoes_inv (P : Errnos) (c : config) (xs : List Exchange) (s : Stat) (h : s.Inv) :
    (sendEchoes P c s xs).Inv := by
  induction xs generalizing s with
  | nil => exact h
  | cons x xs ih => exact ih _ (sendEcho_inv P c s x h)

/-- One round of the loop of `startEcho` on a tick. -/
theorem startEcho_loop_tick (P : Errnos) (c : config) (counter : Int) (s : Stat)
    (consumed : Nat) (out : List String) (x : Exchange) (rest : List Event) :
    startEcho.loop P c counter s consumed out (.tick x :: rest) =
      if ¬ c.infinite ∧ counter = 0 then ⟨s, true, consumed + 1, out⟩
      else if (sendEcho P c s x).2.1 = true then
        ⟨(sendEcho P c s x).1, true, consumed + 1, out ++ (sendEcho P c s x).2.2⟩
      else
        startEcho.loop P c (if ¬ c.infinite then counter - 1 else counter) (sendEcho P c s x).1
          (consumed + 1) (out ++ (sendEcho P c s x).2.2) rest := by
  rw [startEcho.loop]
  by_cases h : ¬ c.infinite ∧ counter = 0
  · rw [if_pos h, if_pos h]
  · rw [if_neg h, if_neg h]
    rcases hse : sendEcho P c s x with ⟨s1, b, o⟩
    cases b <;> simp

theorem startEcho_loop_inv (P : Errnos) (c : config) (events : List Event) (counter : Int)
    (s : Stat) (consumed : Nat) (out : List String) (h : s.Inv) :
    (startEcho.loop P c counter s consumed out events).stat.Inv := by
  induction events generalizing counter s consumed out with
  | nil => exact h
  | cons e rest ih =>
    cases e with
    | tickerDone => exact h
    | tick x =>
      rw [startEcho_loop_tick]
      have hx := sendEcho_inv P c s x h
      split_ifs
      · exact h
      · exact hx
      · exact ih _ _ _ _ hx
      · exact ih _ _ _ _ hx

/-- C1. From the zero statistics, after any finite sequence of calls of
`sendEcho` with any outcomes (write error, read error, end of file, a read of
any bytes), and after any run of `startEcho`, the statistics satisfy
`0 ≤ corrupted ≤ received ≤ sent` and `len(times) = received`. -/
theorem stat_invariant (P : Errnos) (c : config) (addr : String) :
    (∀ xs : List Exchange,
      0 ≤ (sendEchoes P c ⟨addr, [], 0, 0, 0⟩ xs).corrupted ∧
      (sendEchoes P c ⟨addr, [], 0, 0, 0⟩ xs).corrupted
        ≤ (sendEchoes P c ⟨addr, [], 0, 0, 0⟩ xs).received ∧
      (sendEchoes P c ⟨addr, [], 0, 0, 0⟩ xs).received
        ≤ (sendEchoes P c ⟨addr, [], 0, 0, 0⟩ xs).sent ∧
      ((sendEchoes P c ⟨addr, [], 0, 0, 0⟩ xs).times.length : Int)
        = (sendEchoes P c ⟨addr, [], 0, 0, 0⟩ xs).received) ∧
    (∀ events : List Event,
      0 ≤ (startEcho P c ⟨addr, [], 0, 0, 0⟩ events).stat.corrupted ∧
      (startEcho P c ⟨addr, [], 0, 0, 0⟩ events).stat.corrupted
        ≤ (startEcho P c ⟨addr, [], 0, 0, 0⟩ events).stat.received ∧
      (startEcho P c ⟨addr, [], 0, 0, 0⟩ events).stat.received
        ≤ (startEcho P c ⟨addr, [], 0, 0, 0⟩ events).stat.sent ∧
      ((startEcho P c ⟨addr, [], 0, 0, 0⟩ events).stat.times.length : Int)
        = (startEcho P c ⟨addr, [], 0, 0, 0⟩ events).stat.received) := by
  have h0 : (⟨addr, [], 0, 0, 0⟩ : Stat).Inv := by simp [Stat.Inv]
  exact ⟨fun xs => sendEchoes_inv P c xs _ h0, fun events => startEcho_loop_inv P c events _ _ _ _ h0⟩

theorem readInto_newBuf (got : List UInt8) :
    (readInto newBuf got).2.take (readInto newBuf got).1 = got.take 4096 := by
  have hl : newBuf.length = 4096 := List.length_replicate _ _
  simp only [readInto, hl]
  rw [List.take_append_of_le_length (by rw [List.length_take]; omega), List.take_take]
  rcases Nat.le_total got.length 4096 with h | h
  · rw [Nat.min_eq_left h, Nat.min_self, List.take_of_length_le (le_refl _),
      List.take_of_length_le h]
  · rw [Nat.min_eq_right h, Nat.min_self]

/-- C7. For a probe whose write and read succeed, the received bytes are the
read buffer cut to the read length. When they differ from the pattern, in any
byte or in length, `sendEcho` adds one to `corrupted`, one to `received`, one
round-trip time to `times`, and prints the status CORRUPT; when they equal the
pattern, `corrupted` is unchanged, `received` grows by one, one round-trip time
is added, and the status is OK. -/
theorem sendEcho_reply (P : Errnos) (c : config) (s : Stat) (x : Exchange) (got : List UInt8)
    (hw : x.write = none) (hr : x.read = .ok got) :
    (readInto newBuf got).2.take (readInto newBuf got).1 = got.take 4096 ∧
    (got.take 4096 ≠ c.pattern →
      sendEcho P c s x =
        ({ s with
            sent := s.sent + 1
            received := s.received + 1
            corrupted := s.corrupted + 1
            times := s.times ++ [wrapInt64 (x.stop - x.start)] },
          false,
          ["Reply from " ++ s.addr ++ ", time " ++ toString (wrapInt64 (x.stop - x.start))
            ++ " ms, " ++ "CORRUPT"])) ∧
    (got.take 4096 = c.pattern →
      sendEcho P c s x =
        ({ s with
            sent := s.sent + 1
            received := s.received + 1
            times := s.times ++ [wrapInt64 (x.stop - x.start)] },
          false,
          ["Reply from " ++ s.addr ++ ", time " ++ toString (wrapInt64 (x.stop - x.start))
            ++ " ms, " ++ "OK"])) := by
  refine ⟨readInto_newBuf got, ?_, ?_⟩
  · intro hne
    have hne2 : ¬ c.pattern = (readInto newBuf got).2.take (readInto newBuf got).1 := by
      rw [readInto_newBuf]
      exact fun h => hne h.symm
    simp only [sendEcho, hw, hr, printReply]
    rw [if_pos hne2]
  · intro heq
    have heq2 : c.pattern = (readInto newBuf got).2.take (readInto newBuf got).1 := by
      rw [readInto_newBuf]
      exact heq.symm
    simp only [sendEcho, hw, hr, printReply]
    rw [if_neg (not_not.2 heq2)]

/-- Witness of C7: the reply `PINF` to the pattern `PING`. -/
theorem sendEcho_reply_witness :
    (sendEcho linux { pattern := [80, 73, 78, 71] } ⟨"10.0.0.1:7", [], 0, 0, 0⟩
        ⟨none, 5, .ok [80, 73, 78, 70], 9⟩).1
      = ⟨"10.0.0.1:7", [wrapInt64 (9 - 5)], 0 + 1, 0 + 1, 0 + 1⟩ :=
  congrArg Prod.fst
    ((sendEcho_reply linux { pattern := [80, 73, 78, 71] } ⟨"10.0.0.1:7", [], 0, 0, 0⟩
      ⟨none, 5, .ok [80, 73, 78, 70], 9⟩ [80, 73, 78, 70] rfl rfl).2.1
      (by rw [List.take_of_length_le (by decide)]; decide))

/-! ## Timeouts -/

theorem wellFormed_facts (P : Errnos) (hP : P.WellFormed) :
    P.EWOULDBLOCK ≠ P.ECONNRESET ∧ P.EWOULDBLOCK ≠ 10054 ∧ P.ETIMEDOUT ≠ P.ECONNRESET ∧
      P.ETIMEDOUT ≠ 10054 ∧ P.ECONNRESET ≠ 10060 ∧ P.EAGAIN ≠ P.ECONNRESET ∧
      P.EAGAIN ≠ 10054 := by
  have h := List.pairwise_iff_getElem.1 hP.1
  have h1 := h 1 8 (by simp [networkErrors]) (by simp [networkErrors]) (by decide)
  have h2 := h 8 9 (by simp [networkErrors]) (by simp [networkErrors]) (by decide)
  simp only [networkErrors, networkError.Apart, List.getElem_cons_succ,
    List.getElem_cons_zero] at h1 h2
  refine ⟨h1.2.2.2, ?_, ?_, ?_, h2.2.2.1, hP.2.1, hP.2.2⟩
  · exact h1.2.2.1
  · exact fun e => h2.2.2.2 e.symm
  · exact fun e => h2.2.1 e.symm

theorem isTimeout_innermost (P : Errnos) (err : GoError) (h : err.isTimeout P = true) :
    err.innermost.isNetError = true ∧ err.innermost.timeout P = true := by
  induction err with
  | cause c => simpa [GoError.isTimeout, GoError.innermost] using h
  | opError _ e ih => exact ih h
  | syscallError _ e ih => exact ih h
  | wrapError _ e ih => simp [GoError.isTimeout] at h

/-- A timeout is neither the closed condition nor a reset. -/
theorem timeout_not_closedOrReset (P : Errnos) (hP : P.WellFormed) (err : GoError)
    (ht : err.isTimeout P = true ∨ errMsg P err = "Connection timed out") :
    isClosedOrReset P err = false := by
  rcases ht with ht | ht
  · obtain ⟨_, h2⟩ := isTimeout_innermost P err ht
    rw [Bool.eq_false_iff]
    intro hcr
    unfold isClosedOrReset at hcr
    rw [Bool.or_eq_true, isErrClosed_iff, isConnectionReset_iff] at hcr
    rcases hcr with hc | ⟨n, hn, hr⟩
    · rw [hc] at h2
      simp [Cause.timeout] at h2
    · rw [hn] at h2
      simp only [Cause.timeout, Errnos.errnoTimeout, Bool.or_eq_true, beq_iff_eq] at h2
      have := wellFormed_facts P hP
      omega
  · rw [Bool.eq_false_iff]
    intro hcr
    have hcr := errMsg_of_closedOrReset P hP.1 err hcr
    rw [ht] at hcr
    rcases hcr with h | h
    · exact absurd h (by decide)
    · exact absurd h (by decide)

theorem timeout_ne_eof (P : Errnos) (err : GoError)
    (ht : err.isTimeout P = true ∨ errMsg P err = "Connection timed out") :
    err ≠ .cause .eof := by
  rintro rfl
  rcases ht with ht | ht
  · simp [GoError.isTimeout, Cause.isNetError] at ht
  · have : errMsg P (.cause .eof) = "Unknown network error: " ++ "EOF" := by
      simp [errMsg, GoError.innermost, Cause.isNetError, Cause.error]
    rw [this] at ht
    exact absurd ht (unknown_ne_timedOut _)

/-- C8. For a probe whose write or read fails with a timeout (an error that is
a `net.Error` with `Timeout()` true, the errno `ETIMEDOUT` included, or one
printed as "Connection timed out"), `sendEcho` adds one to `sent`, leaves
`received`, `corrupted` and `times` unchanged and returns false, and the loop
of `startEcho` goes on with the next event. The errno constants are those of a
platform on which no two rows of the table share a code and `EAGAIN` is not a
reset. -/
theorem sendEcho_timeout (P : Errnos) (hP : P.WellFormed) (c : config) (s : Stat)
    (x : Exchange) (err : GoError)
    (ht : err.isTimeout P = true ∨ errMsg P err = "Connection timed out")
    (hx : x.write = some err ∨ (x.write = none ∧ x.read = .error err)) :
    (sendEcho P c s x).1 = { s with sent := s.sent + 1 } ∧
    (sendEcho P c s x).2.1 = false ∧
    (sendEcho P c s x).2.2 = printNetworkError P (some err) c.debug ∧
    ∀ (counter : Int) (consumed : Nat) (out : List String) (rest : List Event),
      (c.infinite = true ∨ counter ≠ 0) →
        startEcho.loop P c counter s consumed out (.tick x :: rest) =
          startEcho.loop P c (if ¬ c.infinite then counter - 1 else counter)
            { s with sent := s.sent + 1 } (consumed + 1)
            (out ++ printNetworkError P (some err) c.debug) rest := by
  have hcr := timeout_not_closedOrReset P hP err ht
  have heof := timeout_ne_eof P err ht
  unfold isClosedOrReset at hcr
  have h1 : sendEcho P c s x =
      ({ s with sent := s.sent + 1 }, false, printNetworkError P (some err) c.debug) := by
    rcases hx with hw | ⟨hw, hr⟩
    · simp only [sendEcho, hw, printReply, hcr]
    · simp only [sendEcho, hw, hr, printReply, hcr, if_neg heof]
  refine ⟨by rw [h1], by rw [h1], by rw [h1], ?_⟩
  intro counter consumed out rest hgo
  rw [startEcho_loop_tick, h1]
  have hne : ¬ (¬ c.infinite = true ∧ counter = 0) := by
    rintro ⟨ha, hb⟩
    rcases hgo with h | h
    · exact ha h
    · exact h hb
  rw [if_neg hne]
  simp

/-- Witness of C8: on linux, a read that fails with `ETIMEDOUT`. -/
theorem sendEcho_timeout_witness :
    (sendEcho linux {} ⟨"10.0.0.1:7", [], 0, 0, 0⟩
        ⟨none, 5, .error (.opError "read" (.cause (.errno 110))), 9⟩).2.1 = false :=
  (sendEcho_timeout linux (by decide) {} ⟨"10.0.0.1:7", [], 0, 0, 0⟩
    ⟨none, 5, .error (.opError "read" (.cause (.errno 110))), 9⟩
    (.opError "read" (.cause (.errno 110))) (Or.inl (by decide)) (Or.inr ⟨rfl, rfl⟩)).2.1

/-! ## The configuration -/

/-- What `parseClient` has done when it returns no error. -/
theorem parseClient_ok (c : config) (f : cliFlags) (args : List String) (cfg : config)
    (h : config.parseClient c f args = .ok cfg) :
    cfg.timeout = c.timeout ∧ cfg.serverMode = c.serverMode ∧
    f.echoPeriod.length > 0 ∧ time.ParseDuration f.echoPeriod = .ok cfg.echoPeriod ∧
    f.deadline.length > 0 ∧ time.ParseDuration f.deadline = .ok cfg.deadline ∧
    0 ≤ f.count ∧ cfg.count = f.count ∧
    (cfg.infinite = true ↔ (cfg.count = 0 ∨ c.infinite = true)) := by
  unfold config.parseClient at h
  dsimp only at h
  split_ifs at h <;>
  · rcases he : time.ParseDuration f.echoPeriod with e | echoPeriod
    · simp [he] at h
    · rcases hd : time.ParseDuration f.deadline with e | deadline
      · simp [he, hd] at h
      · simp only [he, hd] at h
        first
        | exact Except.noConfusion h
        | (simp only [Except.ok.injEq] at h
           subst h
           dsimp only
           refine ⟨rfl, rfl, by omega, rfl, by omega, rfl, by omega, rfl, ?_⟩
           simp [*])

/-- What `config.parse` has done when it returns no error in client mode. -/
theorem parse_ok_client (resolve : String → String → Except String String) (f : cliFlags)
    (args : List String) (cfg : config) (h : config.parse resolve f args = .ok cfg)
    (hmode : f.serverMode = false) :
    cfg.serverMode = false ∧
    f.timeout.length > 0 ∧ time.ParseDuration f.timeout = .ok cfg.timeout ∧
    f.echoPeriod.length > 0 ∧ time.ParseDuration f.echoPeriod = .ok cfg.echoPeriod ∧
    f.deadline.length > 0 ∧ time.ParseDuration f.deadline = .ok cfg.deadline ∧
    0 ≤ f.count ∧ cfg.count = f.count ∧ (cfg.infinite = true ↔ cfg.count = 0) := by
  unfold config.parse at h
  dsimp only at h
  rw [hmode] at h
  by_cases hp : ¬ (ToLower f.protocol = "tcp" ∨ ToLower f.protocol = "udp")
  · rw [if_pos hp] at h
    split_ifs at h
  rw [if_neg hp] at h
  by_cases hl : f.localPort < 0 ∨ f.localPort > 65535
  · rw [if_pos hl] at h
    exact Except.noConfusion h
  rw [if_neg hl] at h
  by_cases ht0 : ¬ (f.timeout.length > 0)
  · rw [if_pos ht0] at h
    exact Except.noConfusion h
  rw [if_neg ht0] at h
  rcases ht : time.ParseDuration f.timeout with e | timeout
  · rw [ht] at h
    exact Except.noConfusion h
  rw [ht] at h
  dsimp only at h
  split at h
  · exact Except.noConfusion h
  · simp only [Bool.false_eq_true, not_false_eq_true, if_true] at h
    obtain ⟨h1, h2, h3, h4, h5, h6, h7, h8, h9⟩ := parseClient_ok _ f args cfg h
    refine ⟨h2, by omega, by rw [h1], h3, h4, h5, h6, h7, h8, ?_⟩
    rw [h9]
    simp

/-! ## The probe count -/

theorem sendEcho_sent (P : Errnos) (c : config) (s : Stat) (x : Exchange) :
    (sendEcho P c s x).1.sent = s.sent + 1 := by
  rcases x with ⟨w, st, r, en⟩
  cases w with
  | some err => simp only [sendEcho, printReply]
  | none =>
    cases r with
    | error err =>
      simp only [sendEcho, printReply]
      split_ifs <;> rfl
    | ok got =>
      simp only [sendEcho, printReply]
      split_ifs <;> rfl

theorem sendEchoes_sent (P : Errnos) (c : config) (xs : List Exchange) (s : Stat) :
    (sendEchoes P c s xs).sent = s.sent + xs.length := by
  induction xs generalizing s with
  | nil => simp [sendEchoes]
  | cons x xs ih =>
    rw [sendEchoes, ih, sendEcho_sent, List.length_cons]
    push_cast
    ring

theorem sendEchoes_append (P : Errnos) (c : config) (xs ys : List Exchange) (s : Stat) :
    sendEchoes P c s (xs ++ ys) = sendEchoes P c (sendEchoes P c s xs) ys := by
  induction xs generalizing s with
  | nil => rfl
  | cons x xs ih => exact ih _

/-- The loop of `startEcho` over ticks none of which reports closed or reset,
while the counter lasts. -/
theorem startEcho_loop_ticks (P : Errnos) (c : config) (xs : List Exchange)
    (hxs : ∀ x ∈ xs, ∀ s, (sendEcho P c s x).2.1 = false) (counter : Int)
    (hc : c.infinite = true ∨ (xs.length : Int) ≤ counter) (s : Stat) (consumed : Nat)
    (out : List String) (rest : List Event) :
    ∃ out1, startEcho.loop P c counter s consumed out (ticks xs ++ rest) =
      startEcho.loop P c (if c.infinite = true then counter else counter - xs.length)
        (sendEchoes P c s xs) (consumed + xs.length) out1 rest := by
  induction xs generalizing counter s consumed out with
  | nil => exact ⟨out, by simp [ticks, sendEchoes]⟩
  | cons x xs ih =>
    have hx := hxs x (List.mem_cons_self _ _) s
    have hne : ¬ (¬ c.infinite = true ∧ counter = 0) := by
      rintro ⟨ha, hb⟩
      rcases hc with h | h
      · exact ha h
      · rw [hb, List.length_cons] at h
        push_cast at h
        omega
    have hc1 : c.infinite = true ∨
        (xs.length : Int) ≤ (if ¬ c.infinite = true then counter - 1 else counter) := by
      rcases hc with h | h
      · exact Or.inl h
      · right
        rw [List.length_cons] at h
        push_cast at h
        split_ifs <;> omega
    obtain ⟨out1, h1⟩ := ih (fun y hy => hxs y (List.mem_cons_of_mem _ hy)) _ hc1
      (sendEcho P c s x).1 (consumed + 1) (out ++ (sendEcho P c s x).2.2)
    refine ⟨out1, ?_⟩
    simp only [ticks, List.map_cons, List.cons_append] at h1 ⊢
    rw [startEcho_loop_tick, if_neg hne, hx]
    simp only [Bool.false_eq_true, if_false]
    rw [h1, sendEchoes, List.length_cons]
    congr 1
    · split_ifs <;> first | rfl | contradiction | (push_cast; omega)
    · omega


/-- In infinite mode the loop returns only on `tickerDone` or on an attempt that
reports closed or reset. -/
theorem startEcho_loop_infinite_returned (P : Errnos) (c : config) (hinf : c.infinite = true)
    (events : List Event) (counter : Int) (s : Stat) (consumed : Nat) (out : List String)
    (h : (startEcho.loop P c counter s consumed out events).returned = true) :
    Event.tickerDone ∈ events ∨
      ∃ x s1, Event.tick x ∈ events ∧ (sendEcho P c s1 x).2.1 = true := by
  induction events generalizing counter s consumed out with
  | nil => simp [startEcho.loop] at h
  | cons e rest ih =>
    cases e with
    | tickerDone => exact Or.inl (List.mem_cons_self _ _)
    | tick x =>
      rw [startEcho_loop_tick] at h
      have hne : ¬ (¬ c.infinite = true ∧ counter = 0) := fun hh => hh.1 hinf
      rw [if_neg hne] at h
      by_cases hx : (sendEcho P c s x).2.1 = true
      · exact Or.inr ⟨x, s, List.mem_cons_self _ _, hx⟩
      · rw [if_neg hx] at h
        rcases ih _ _ _ _ h with h1 | ⟨y, s1, hy, hy1⟩
        · exact Or.inl (List.mem_cons_of_mem _ h1)
        · exact Or.inr ⟨y, s1, List.mem_cons_of_mem _ hy, hy1⟩

/-- C4. With `count = N > 0` (not infinite) and no cancellation, when no attempt
reports closed or reset `startEcho` calls `sendEcho` exactly `N` times and
returns on tick `N + 1` without sending; when attempt `k` is the first to report
closed or reset (in infinite mode, or with `k ≤ N`), exactly `k` attempts are
made and `startEcho` returns on tick `k`. In infinite mode the counter never ends
the loop: every tick is an attempt, and the loop returns only on `tickerDone` or
on an attempt that reports closed or reset. A configuration accepted by
`config.parse` in client mode has the count of the flags, which is not
negative, and is infinite exactly when the count is 0. -/
theorem startEcho_probe_count (P : Errnos) (c : config) (s : Stat) :
    (∀ (N : Nat) (xs : List Exchange) (x : Exchange) (rest : List Event),
      c.infinite = false → c.count = N → 0 < N → xs.length = N →
      (∀ y ∈ xs, ∀ s1, (sendEcho P c s1 y).2.1 = false) →
        (startEcho P c s (ticks xs ++ .tick x :: rest)).returned = true ∧
        (startEcho P c s (ticks xs ++ .tick x :: rest)).consumed = N + 1 ∧
        (startEcho P c s (ticks xs ++ .tick x :: rest)).stat = sendEchoes P c s xs ∧
        (startEcho P c s (ticks xs ++ .tick x :: rest)).stat.sent = s.sent + N) ∧
    (∀ (pre : List Exchange) (x : Exchange) (rest : List Event),
      (c.infinite = true ∨ (pre.length : Int) < c.count) →
      (∀ y ∈ pre, ∀ s1, (sendEcho P c s1 y).2.1 = false) →
      (∀ s1, (sendEcho P c s1 x).2.1 = true) →
        (startEcho P c s (ticks pre ++ .tick x :: rest)).returned = true ∧
        (startEcho P c s (ticks pre ++ .tick x :: rest)).consumed = pre.length + 1 ∧
        (startEcho P c s (ticks pre ++ .tick x :: rest)).stat = sendEchoes P c s (pre ++ [x]) ∧
        (startEcho P c s (ticks pre ++ .tick x :: rest)).stat.sent
          = s.sent + (pre.length + 1 : Nat)) ∧
    (∀ (xs : List Exchange), c.infinite = true →
      (∀ y ∈ xs, ∀ s1, (sendEcho P c s1 y).2.1 = false) →
        (startEcho P c s (ticks xs)).returned = false ∧
        (startEcho P c s (ticks xs)).consumed = xs.length ∧
        (startEcho P c s (ticks xs)).stat.sent = s.sent + xs.length) ∧
    (∀ (events : List Event), c.infinite = true →
      (startEcho P c s events).returned = true →
        Event.tickerDone ∈ events ∨
          ∃ x s1, Event.tick x ∈ events ∧ (sendEcho P c s1 x).2.1 = true) ∧
    (∀ (resolve : String → String → Except String String) (f : cliFlags)
      (args : List String) (cfg : config),
      config.parse resolve f args = .ok cfg → f.serverMode = false →
        cfg.count = f.count ∧ 0 ≤ cfg.count ∧ (cfg.infinite = true ↔ cfg.count = 0)) := by
  refine ⟨?_, ?_, ?_, ?_, ?_⟩
  · intro N xs x rest hinf hcount hN hlen hxs
    obtain ⟨out1, h⟩ := startEcho_loop_ticks P c xs hxs c.count
      (Or.inr (by rw [hcount, hlen])) s 0 [] (.tick x :: rest)
    have hstop : ¬ c.infinite = true ∧
        (if c.infinite = true then c.count else c.count - (xs.length : Int)) = 0 := by
      rw [hinf]
      refine ⟨by simp, ?_⟩
      simp only [Bool.false_eq_true, if_false]
      rw [hcount, hlen]
      omega
    unfold startEcho
    rw [h, startEcho_loop_tick, if_pos hstop]
    refine ⟨rfl, by simp [hlen], rfl, ?_⟩
    simp only []
    rw [sendEchoes_sent, hlen]
  · intro pre x rest hc hpre hx
    obtain ⟨out1, h⟩ := startEcho_loop_ticks P c pre hpre c.count
      (hc.imp id (fun h => le_of_lt h)) s 0 [] (.tick x :: rest)
    have hne : ¬ (¬ c.infinite = true ∧
        (if c.infinite = true then c.count else c.count - (pre.length : Int)) = 0) := by
      rintro ⟨ha, hb⟩
      rcases hc with h1 | h1
      · exact ha h1
      · rw [if_neg ha] at hb
        omega
    unfold startEcho
    rw [h, startEcho_loop_tick, if_neg hne, if_pos (hx _)]
    have hs : sendEchoes P c s (pre ++ [x]) = (sendEcho P c (sendEchoes P c s pre) x).1 := by
      rw [sendEchoes_append]
      rfl
    refine ⟨rfl, by simp, hs.symm, ?_⟩
    simp only []
    rw [sendEcho_sent, sendEchoes_sent]
    push_cast
    ring
  · intro xs hinf hxs
    obtain ⟨out1, h⟩ := startEcho_loop_ticks P c xs hxs c.count (Or.inl hinf) s 0 [] []
    unfold startEcho
    rw [List.append_nil] at h
    rw [h]
    simp only [startEcho.loop]
    refine ⟨trivial, by simp, ?_⟩
    rw [sendEchoes_sent]
  · intro events hinf h
    exact startEcho_loop_infinite_returned P c hinf events _ _ _ _ h
  · intro resolve f args cfg h hmode
    obtain ⟨_, _, _, _, _, _, _, h8, h9, h10⟩ := parse_ok_client resolve f args cfg h hmode
    exact ⟨h9, by rw [h9]; exact h8, h10⟩


theorem sendEcho_ok_false (P : Errnos) (c : config) (s : Stat) (x : Exchange)
    (got : List UInt8) (hw : x.write = none) (hr : x.read = .ok got) :
    (sendEcho P c s x).2.1 = false := by
  simp only [sendEcho, hw, hr, printReply]

/-- Witness of C4: `count = 2` and three ticks with echoed replies. -/
theorem startEcho_probe_count_witness :
    (startEcho linux { count := 2, pattern := [80] } ⟨"10.0.0.1:7", [], 0, 0, 0⟩
      (ticks [⟨none, 0, .ok [80], 1⟩, ⟨none, 2, .ok [80], 3⟩]
        ++ .tick ⟨none, 4, .ok [80], 5⟩ :: [])).consumed = 2 + 1 :=
  ((startEcho_probe_count linux { count := 2, pattern := [80] } ⟨"10.0.0.1:7", [], 0, 0, 0⟩).1 2
    [⟨none, 0, .ok [80], 1⟩, ⟨none, 2, .ok [80], 3⟩] ⟨none, 4, .ok [80], 5⟩ [] rfl rfl
    (by decide) rfl
    (fun y hy s1 => by
      simp only [List.mem_cons, List.mem_singleton, List.not_mem_nil, or_false] at hy
      rcases hy with rfl | rfl <;> exact sendEcho_ok_false _ _ _ _ [80] rfl rfl)).2.1

/-! ## The server -/

theorem readInto_take (buf got : List UInt8) :
    (readInto buf got).2.take (readInto buf got).1 = got.take buf.length := by
  simp only [readInto]
  rw [List.take_append_of_le_length (by rw [List.length_take]; omega), List.take_take]
  rcases Nat.le_total got.length buf.length with h | h
  · rw [Nat.min_eq_left h, Nat.min_self, List.take_of_length_le (le_refl _),
      List.take_of_length_le h]
  · rw [Nat.min_eq_right h, Nat.min_self]

theorem readInto_length (buf got : List UInt8) : (readInto buf got).2.length = buf.length := by
  simp only [readInto, List.length_append, List.length_take, List.length_drop]
  omega

/-- The UDP loop over reads none of which fails with `net.ErrClosed`: it goes on
with a buffer of the same length. -/
theorem udp_loop_append (pre : List UDPRead)
    (hpre : ∀ p ∈ pre, ∀ e, p.result = .error e → e.isErrClosed = false) (buf : List UInt8) :
    ∃ buf1, buf1.length = buf.length ∧
      ∀ rest, server.udp.loop buf (pre ++ rest) =
        server.udp.loop buf pre ++ server.udp.loop buf1 rest := by
  induction pre generalizing buf with
  | nil => exact ⟨buf, rfl, fun rest => by simp [server.udp.loop]⟩
  | cons p pre ih =>
    have hp := hpre p (List.mem_cons_self _ _)
    have hgo : ∃ eff buf2, buf2.length = buf.length ∧ server.udp.iter buf p = (eff, buf2, true) := by
      rcases p with ⟨res, now, werr⟩
      cases res with
      | error e =>
        have := hp e rfl
        exact ⟨[Effect.send { err := some e }], buf, rfl, by simp [server.udp.iter, this]⟩
      | ok ga =>
        rcases ga with ⟨got, addr⟩
        simp only [server.udp.iter]
        split_ifs
        · cases werr <;> exact ⟨_, _, readInto_length buf got, rfl⟩
        · exact ⟨_, _, readInto_length buf got, rfl⟩
    obtain ⟨eff, buf2, hlen, hiter⟩ := hgo
    obtain ⟨buf1, hlen1, h⟩ := ih (fun q hq => hpre q (List.mem_cons_of_mem _ hq)) buf2
    refine ⟨buf1, hlen1.trans hlen, fun rest => ?_⟩
    simp only [List.cons_append, server.udp.loop, hiter, List.append_eq]
    rw [h rest, List.append_assoc]

/-- The TCP handler over reads each of which delivers bytes that are then
written without error: it goes on with a buffer of the same length. -/
theorem tcp_loop_append (addr : String) (pre : List TCPRead)
    (hpre : ∀ p ∈ pre, ∃ got, p.result = .ok got ∧ 0 < got.length ∧ p.writeErr = none)
    (buf : List UInt8) (hbuf : 0 < buf.length) :
    ∃ buf1, buf1.length = buf.length ∧
      ∀ rest, server.handleTCPConnection.loop addr buf (pre ++ rest) =
        server.handleTCPConnection.loop addr buf pre
          ++ server.handleTCPConnection.loop addr buf1 rest := by
  induction pre generalizing buf with
  | nil => exact ⟨buf, rfl, fun rest => by simp [server.handleTCPConnection.loop]⟩
  | cons p pre ih =>
    obtain ⟨got, hres, hgot, hw⟩ := hpre p (List.mem_cons_self _ _)
    have hn : ¬ (readInto buf got).1 = 0 := by
      simp only [readInto]
      omega
    have hiter : ∃ eff, server.handleTCPConnection.iter addr buf p
        = (eff, (readInto buf got).2, true) := by
      rcases p with ⟨res, now, werr⟩
      simp only at hres hw
      subst hres hw
      simp only [server.handleTCPConnection.iter]
      rw [if_neg hn]
      exact ⟨_, rfl⟩
    obtain ⟨eff, hiter⟩ := hiter
    have hlen := readInto_length buf got
    obtain ⟨buf1, hlen1, h⟩ := ih (fun q hq => hpre q (List.mem_cons_of_mem _ hq))
      (readInto buf got).2 (by omega)
    refine ⟨buf1, hlen1.trans hlen, fun rest => ?_⟩
    simp only [List.cons_append, server.handleTCPConnection.loop, hiter, List.append_eq]
    rw [h rest, List.append_assoc]

/-- C10. In the UDP loop and in the TCP handler, a successful read of `n > 0`
bytes from a peer is followed by exactly one send of a request that carries
those `n` bytes and the address of the peer, then by exactly one write of the
same `n` bytes back to that peer, and by nothing else but the report of an
error of that write; the UDP loop then goes on with the next read, and so does
the TCP handler when the write succeeded. A UDP datagram of length 0 produces
no event and no write. The `n` bytes are the first `len(buf)` bytes the peer
delivered. The same holds of the methods `server.udp` and
`handleTCPConnection` as a whole, for a read that comes after any reads that
did not end the loop. -/
theorem server_echo (buf : List UInt8) (got : List UInt8) (addr : String) (now : Int)
    (werr : Option GoError) (hbuf : 0 < buf.length) :
    (0 < got.length →
      (server.udp.iter buf ⟨.ok (got, addr), now, werr⟩).1 =
        [Effect.send { addr := addr, data := got.take buf.length, timestamp := now },
          Effect.writeTo (got.take buf.length) addr]
          ++ werr.toList.map (fun err => Effect.send { err := some err }) ∧
      (server.udp.iter buf ⟨.ok (got, addr), now, werr⟩).2.2 = true ∧
      (∀ rest, server.udp.loop buf (⟨.ok (got, addr), now, werr⟩ :: rest) =
        (server.udp.iter buf ⟨.ok (got, addr), now, werr⟩).1
          ++ server.udp.loop (readInto buf got).2 rest) ∧
      (server.handleTCPConnection.iter addr buf ⟨.ok got, now, werr⟩).1 =
        [Effect.send { addr := addr, data := got.take buf.length, timestamp := now },
          Effect.write (got.take buf.length)]
          ++ werr.toList.map (fun err => Effect.send { err := some err }) ∧
      (∀ rest, werr = none →
        server.handleTCPConnection.loop addr buf (⟨.ok got, now, werr⟩ :: rest) =
          (server.handleTCPConnection.iter addr buf ⟨.ok got, now, werr⟩).1
            ++ server.handleTCPConnection.loop addr (readInto buf got).2 rest)) ∧
    (got.length = 0 →
      (server.udp.iter buf ⟨.ok (got, addr), now, werr⟩).1 = [] ∧
      (server.udp.iter buf ⟨.ok (got, addr), now, werr⟩).2.2 = true ∧
      ∀ rest, server.udp.loop buf (⟨.ok (got, addr), now, werr⟩ :: rest) =
        server.udp.loop (readInto buf got).2 rest) ∧
    (0 < got.length → ∀ (pre rest : List UDPRead),
      (∀ p ∈ pre, ∀ e, p.result = .error e → e.isErrClosed = false) →
        ∃ buf1, server.udp (pre ++ ⟨.ok (got, addr), now, werr⟩ :: rest) =
          server.udp pre
            ++ ([Effect.send { addr := addr, data := got.take 4096, timestamp := now },
                  Effect.writeTo (got.take 4096) addr]
                ++ werr.toList.map (fun err => Effect.send { err := some err }))
            ++ server.udp.loop buf1 rest) ∧
    (0 < got.length → ∀ (pre rest : List TCPRead),
      (∀ p ∈ pre, ∃ g, p.result = .ok g ∧ 0 < g.length ∧ p.writeErr = none) →
        ∃ buf1, server.handleTCPConnection addr (pre ++ ⟨.ok got, now, werr⟩ :: rest) =
          server.handleTCPConnection addr pre
            ++ ([Effect.send { addr := addr, data := got.take 4096, timestamp := now },
                  Effect.write (got.take 4096)]
                ++ werr.toList.map (fun err => Effect.send { err := some err }))
            ++ (if werr = none then server.handleTCPConnection.loop addr buf1 rest else [])) ∧
    (got.length = 0 → ∀ (pre rest : List UDPRead),
      (∀ p ∈ pre, ∀ e, p.result = .error e → e.isErrClosed = false) →
        ∃ buf1, server.udp (pre ++ ⟨.ok (got, addr), now, werr⟩ :: rest) =
          server.udp pre ++ server.udp.loop buf1 rest) := by
  have hnew : newBuf.length = 4096 := List.length_replicate _ _
  have hU : ∀ b : List UInt8, 0 < b.length → 0 < got.length →
      server.udp.iter b ⟨.ok (got, addr), now, werr⟩ =
        ([Effect.send { addr := addr, data := got.take b.length, timestamp := now },
          Effect.writeTo (got.take b.length) addr]
          ++ werr.toList.map (fun err => Effect.send { err := some err }),
          (readInto b got).2, true) := by
    intro b hb hgot
    have hn : (readInto b got).1 > 0 := by
      simp only [readInto]
      omega
    simp only [server.udp.iter]
    rw [if_pos hn, readInto_take]
    cases werr <;> simp
  have hT : ∀ b : List UInt8, 0 < b.length → 0 < got.length →
      server.handleTCPConnection.iter addr b ⟨.ok got, now, werr⟩ =
        ([Effect.send { addr := addr, data := got.take b.length, timestamp := now },
          Effect.write (got.take b.length)]
          ++ werr.toList.map (fun err => Effect.send { err := some err }),
          (readInto b got).2, decide (werr = none)) := by
    intro b hb hgot
    have hn0 : ¬ (readInto b got).1 = 0 := by
      simp only [readInto]
      omega
    simp only [server.handleTCPConnection.iter]
    rw [if_neg hn0, readInto_take]
    cases werr <;> simp
  have hZ : ∀ b : List UInt8, got.length = 0 →
      server.udp.iter b ⟨.ok (got, addr), now, werr⟩ = ([], (readInto b got).2, true) := by
    intro b hgot
    have hn : ¬ (readInto b got).1 > 0 := by
      simp only [readInto]
      omega
    simp only [server.udp.iter]
    rw [if_neg hn]
  refine ⟨?_, ?_, ?_, ?_, ?_⟩
  · intro hgot
    have hu := hU buf hbuf hgot
    have ht := hT buf hbuf hgot
    refine ⟨by rw [hu], by rw [hu], ?_, by rw [ht], ?_⟩
    · intro rest
      rw [server.udp.loop, hu]
    · intro rest hw
      rw [server.handleTCPConnection.loop, ht]
      simp [hw]
  · intro hgot
    have hu := hZ buf hgot
    refine ⟨by rw [hu], by rw [hu], ?_⟩
    intro rest
    rw [server.udp.loop, hu]
    simp
  · intro hgot pre rest hpre
    obtain ⟨buf1, hlen, h⟩ := udp_loop_append pre hpre newBuf
    have hu := hU buf1 (by omega) hgot
    refine ⟨(readInto buf1 got).2, ?_⟩
    unfold server.udp
    rw [h, server.udp.loop, hu, hlen, hnew]
    simp only [List.append_assoc]
  · intro hgot pre rest hpre
    obtain ⟨buf1, hlen, h⟩ := tcp_loop_append addr pre hpre newBuf (by omega)
    have ht := hT buf1 (by omega) hgot
    refine ⟨(readInto buf1 got).2, ?_⟩
    unfold server.handleTCPConnection
    rw [h, server.handleTCPConnection.loop, ht, hlen, hnew]
    cases werr <;> simp
  · intro hgot pre rest hpre
    obtain ⟨buf1, hlen, h⟩ := udp_loop_append pre hpre newBuf
    have hu := hZ buf1 hgot
    refine ⟨(readInto buf1 got).2, ?_⟩
    unfold server.udp
    rw [h, server.udp.loop, hu]
    simp

/-- Witness of C10: the datagram `hello` from `1.2.3.4:5000`. -/
theorem server_echo_witness :
    (server.udp.iter newBuf ⟨.ok ([104, 101, 108, 108, 111], "1.2.3.4:5000"), 0, none⟩).1 =
      [Effect.send
          { addr := "1.2.3.4:5000"
            data := List.take newBuf.length [104, 101, 108, 108, 111]
            timestamp := 0 },
        Effect.writeTo (List.take newBuf.length [104, 101, 108, 108, 111]) "1.2.3.4:5000"]
        ++ (none : Option GoError).toList.map (fun err => Effect.send { err := some err }) :=
  ((server_echo newBuf [104, 101, 108, 108, 111] "1.2.3.4:5000" 0 none
    (by rw [newBuf, List.length_replicate]; decide)).1 (by decide)).1

/-- C9 (a defect of the code). `config.parse` does not reject durations that
are not positive: in client mode it accepts the timeout `0s`, the deadline
`-1s` and the echo period `0`, and returns a configuration with a zero timeout,
a negative deadline and a zero echo period, although it checks the range of the
count and of both ports. With that configuration `client.init` panics in
`time.NewTicker`. -/
theorem parse_accepts_nonpositive_durations :
    config.parse (fun _ a => .ok a)
        { protocol := "tcp", remotePort := 7, pattern := "x", timeout := "0s", deadline := "-1s",
          echoPeriod := "0" } ["host"]
      = .ok
        { hostLocal := "", hostRemote := "host", portLocal := "0", portRemote := "7",
          protocol := "tcp", serverMode := false, count := 5, infinite := false, timeout := 0,
          deadline := -1000000000, echoPeriod := 0, pattern := [120], debug := false,
          addrLocal := some ":0", addrLocalUDP := none, addrRemote := "host:7" } ∧
    client.init
        { hostLocal := "", hostRemote := "host", portLocal := "0", portRemote := "7",
          protocol := "tcp", serverMode := false, count := 5, infinite := false, timeout := 0,
          deadline := -1000000000, echoPeriod := 0, pattern := [120], debug := false,
          addrLocal := some ":0", addrLocalUDP := none, addrRemote := "host:7" }
      = .error "non-positive interval for NewTicker" ∧
    ¬ (∀ (resolve : String → String → Except String String) (f : cliFlags)
        (args : List String) (cfg : config),
        config.parse resolve f args = .ok cfg → cfg.serverMode = false →
          0 < cfg.timeout ∧ 0 < cfg.deadline ∧ 0 < cfg.echoPeriod) :=
  ⟨rfl, rfl, fun h =>
    absurd
      (h (fun _ a => .ok a)
        { protocol := "tcp", remotePort := 7, pattern := "x", timeout := "0s", deadline := "-1s",
          echoPeriod := "0" } ["host"] _ rfl rfl).1
      (by decide)⟩

/-! ## Rounding to `float64` -/

namespace F64

theorem roundHalfEven_cases (y : ℚ) :
    roundHalfEven y = ⌊y⌋ ∨ roundHalfEven y = ⌊y⌋ + 1 := by
  unfold roundHalfEven
  split_ifs <;> simp

theorem roundHalfEven_dist (y : ℚ) :
    |y - roundHalfEven y| ≤ y - ⌊y⌋ ∧ |y - roundHalfEven y| ≤ ⌊y⌋ + 1 - y := by
  have h0 : (⌊y⌋ : ℚ) ≤ y := Int.floor_le y
  have h1 : y < ⌊y⌋ + 1 := Int.lt_floor_add_one y
  unfold roundHalfEven
  split_ifs with ha hb hc
  · rw [abs_of_nonneg (by linarith)]
    constructor <;> linarith
  · push_cast
    rw [abs_of_nonpos (by linarith)]
    constructor <;> linarith
  · have : y - ⌊y⌋ = 1 / 2 := le_antisymm (not_lt.1 hb) (not_lt.1 ha)
    rw [abs_of_nonneg (by linarith)]
    constructor <;> linarith
  · have : y - ⌊y⌋ = 1 / 2 := le_antisymm (not_lt.1 hb) (not_lt.1 ha)
    push_cast
    rw [abs_of_nonpos (by linarith)]
    constructor <;> linarith

/-- No integer is nearer to `y` than `roundHalfEven y`. -/
theorem roundHalfEven_nearest (y : ℚ) (k : ℤ) : |y - roundHalfEven y| ≤ |y - k| := by
  obtain ⟨h1, h2⟩ := roundHalfEven_dist y
  rcases le_or_lt k ⌊y⌋ with hk | hk
  · have : (k : ℚ) ≤ ⌊y⌋ := by exact_mod_cast hk
    calc |y - roundHalfEven y| ≤ y - ⌊y⌋ := h1
      _ ≤ y - k := by linarith
      _ ≤ |y - k| := le_abs_self _
  · have : (⌊y⌋ : ℚ) + 1 ≤ k := by exact_mod_cast hk
    calc |y - roundHalfEven y| ≤ ⌊y⌋ + 1 - y := h2
      _ ≤ -(y - k) := by linarith
      _ ≤ |y - k| := neg_le_abs _

end F64

namespace F64

/-- The unit in the last place for `x`: `2 ^ (e - 52)` with `2 ^ e ≤ |x| < 2 ^ (e + 1)`. -/
theorem ulp_bounds (x : ℚ) (hx : x ≠ 0) :
    (0 : ℚ) < 2 ^ (Int.log 2 |x| - 52) ∧
      (2 : ℚ) ^ 52 ≤ |x / 2 ^ (Int.log 2 |x| - 52)| ∧
      |x / 2 ^ (Int.log 2 |x| - 52)| < (2 : ℚ) ^ 53 := by
  have hpos : (0 : ℚ) < |x| := abs_pos.2 hx
  have hu : (0 : ℚ) < 2 ^ (Int.log 2 |x| - 52) := zpow_pos (by norm_num) _
  have h1 : ((2 : ℕ) : ℚ) ^ Int.log 2 |x| ≤ |x| := Int.zpow_log_le_self (by norm_num) hpos
  have h2 : |x| < ((2 : ℕ) : ℚ) ^ (Int.log 2 |x| + 1) :=
    Int.lt_zpow_succ_log_self (by norm_num) _
  rw [Nat.cast_ofNat] at h1 h2
  have e1 : (2 : ℚ) ^ Int.log 2 |x| = 2 ^ (Int.log 2 |x| - 52) * 2 ^ 52 := by
    rw [zpow_sub₀ (by norm_num : (2 : ℚ) ≠ 0)]
    norm_num
  have e2 : (2 : ℚ) ^ (Int.log 2 |x| + 1) = 2 ^ (Int.log 2 |x| - 52) * 2 ^ 53 := by
    rw [zpow_sub₀ (by norm_num : (2 : ℚ) ≠ 0), zpow_add₀ (by norm_num : (2 : ℚ) ≠ 0)]
    norm_num
    ring
  refine ⟨hu, ?_, ?_⟩
  · rw [abs_div, abs_of_pos hu, le_div_iff₀ hu]
    linarith
  · rw [abs_div, abs_of_pos hu, div_lt_iff₀ hu]
    linarith

end F64

namespace F64

theorem round_zero : round 0 = 0 := by simp [round]

theorem round_of_ne (x : ℚ) (hx : x ≠ 0) :
    round x = roundHalfEven (x / 2 ^ (Int.log 2 |x| - 52)) * 2 ^ (Int.log 2 |x| - 52) := by
  simp [round, hx]

theorem roundHalfEven_abs_le (y : ℚ) (h : |y| < 2 ^ 53) : |roundHalfEven y| ≤ 2 ^ 53 := by
  obtain ⟨h1, h2⟩ := abs_lt.1 h
  have hf1 : (-(2 ^ 53) : ℤ) ≤ ⌊y⌋ := Int.le_floor.2 (by push_cast; linarith)
  have hf2 : ⌊y⌋ < (2 ^ 53 : ℤ) := Int.floor_lt.2 (by push_cast; linarith)
  rw [abs_le]
  rcases roundHalfEven_cases y with h | h <;> rw [h] <;> constructor <;> omega

/-- The result of rounding is a `float64`. -/
theorem round_rep (x : ℚ) : Rep (round x) := by
  by_cases hx : x = 0
  · rw [hx, round_zero]
    exact ⟨0, 0, by norm_num, by norm_num⟩
  · rw [round_of_ne x hx]
    exact ⟨_, _, roundHalfEven_abs_le _ (ulp_bounds x hx).2.2, rfl⟩

/-- No `float64` is nearer to `x` than `round x`. -/
theorem round_nearest (x f : ℚ) (hf : Rep f) : |x - round x| ≤ |x - f| := by
  by_cases hx : x = 0
  · rw [hx, round_zero]
    simp
  obtain ⟨hu, hlo, hhi⟩ := ulp_bounds x hx
  rw [round_of_ne x hx]
  set u : ℚ := 2 ^ (Int.log 2 |x| - 52) with hu_def
  set y : ℚ := x / u with hy_def
  have hxy : x = y * u := by rw [hy_def]; field_simp
  -- it is enough to compare after division by `u`
  suffices h : |y - roundHalfEven y| ≤ |y - f / u| by
    have e1 : x - roundHalfEven y * u = (y - roundHalfEven y) * u := by rw [hxy]; ring
    have e2 : x - f = (y - f / u) * u := by rw [hxy]; field_simp
    rw [e1, e2, abs_mul, abs_mul, abs_of_pos hu]
    exact mul_le_mul_of_nonneg_right h hu.le
  obtain ⟨m, g, hm, rfl⟩ := hf
  rcases le_or_lt (Int.log 2 |x| - 52) g with hg | hg
  · -- `f / u` is an integer
    obtain ⟨d, hd⟩ := Int.eq_ofNat_of_zero_le (sub_nonneg.2 hg)
    have e3 : (m : ℚ) * 2 ^ g / u = ((m * 2 ^ d : ℤ) : ℚ) := by
      rw [hu_def, mul_div_assoc, ← zpow_sub₀ (by norm_num : (2 : ℚ) ≠ 0), hd]
      push_cast
      rw [zpow_natCast]
    rw [e3]
    exact roundHalfEven_nearest y _
  · -- `f / u` is at most `2 ^ 52` in absolute value
    have hq : |(m : ℚ) * 2 ^ g / u| ≤ 2 ^ 52 := by
      have e4 : (m : ℚ) * 2 ^ g / u = m * 2 ^ (g - (Int.log 2 |x| - 52)) := by
        rw [hu_def, mul_div_assoc, ← zpow_sub₀ (by norm_num : (2 : ℚ) ≠ 0)]
      have hle : (2 : ℚ) ^ (g - (Int.log 2 |x| - 52)) ≤ 2 ^ (-1 : ℤ) :=
        zpow_le_zpow_right₀ (by norm_num) (by omega)
      have hpos : (0 : ℚ) < 2 ^ (g - (Int.log 2 |x| - 52)) := zpow_pos (by norm_num) _
      have hm' : |(m : ℚ)| ≤ 2 ^ 53 := by exact_mod_cast hm
      rw [e4, abs_mul, abs_of_pos hpos]
      calc |(m : ℚ)| * 2 ^ (g - (Int.log 2 |x| - 52)) ≤ 2 ^ 53 * 2 ^ (-1 : ℤ) :=
            mul_le_mul hm' hle hpos.le (by norm_num)
        _ = 2 ^ 52 := by norm_num
    obtain ⟨hq1, hq2⟩ := abs_le.1 hq
    rcases le_or_lt 0 y with hy | hy
    · rw [abs_of_nonneg hy] at hlo
      calc |y - roundHalfEven y| ≤ |y - ((2 ^ 52 : ℤ) : ℚ)| := roundHalfEven_nearest y _
        _ = y - 2 ^ 52 := by push_cast; exact abs_of_nonneg (by linarith)
        _ ≤ y - (m : ℚ) * 2 ^ g / u := by linarith
        _ ≤ |y - (m : ℚ) * 2 ^ g / u| := le_abs_self _
    · rw [abs_of_neg hy] at hlo
      calc |y - roundHalfEven y| ≤ |y - ((-(2 ^ 52) : ℤ) : ℚ)| := roundHalfEven_nearest y _
        _ = -(y + 2 ^ 52) := by push_cast; rw [abs_of_nonpos (by linarith)]; ring
        _ ≤ -(y - (m : ℚ) * 2 ^ g / u) := by linarith
        _ ≤ |y - (m : ℚ) * 2 ^ g / u| := neg_le_abs _

end F64

namespace F64

/-- A `float64` is its own rounding. -/
theorem round_of_rep (x : ℚ) (hx : Rep x) : round x = x := by
  have h := round_nearest x x hx
  rw [sub_self, abs_zero] at h
  have h0 := abs_nonpos_iff.1 h
  linarith

/-- Rounding is monotone. -/
theorem round_mono {x y : ℚ} (hxy : x ≤ y) : round x ≤ round y := by
  by_contra hlt
  rw [not_le] at hlt
  have h1 := round_nearest x (round y) (round_rep y)
  have h2 := round_nearest y (round x) (round_rep x)
  -- `x` is at least, and `y` at most, halfway between the two results
  have hx : round x + round y ≤ 2 * x := by
    rcases abs_cases (x - round x) with ⟨e1, _⟩ | ⟨e1, _⟩ <;>
      rcases abs_cases (x - round y) with ⟨e2, _⟩ | ⟨e2, _⟩ <;> linarith
  have hy : 2 * y ≤ round x + round y := by
    rcases abs_cases (y - round y) with ⟨e1, _⟩ | ⟨e1, _⟩ <;>
      rcases abs_cases (y - round x) with ⟨e2, _⟩ | ⟨e2, _⟩ <;> linarith
  have hxy' : x = y := by linarith
  rw [hxy'] at hlt
  exact lt_irrefl _ hlt

/-- Integers of at most 53 bits are `float64` values. -/
theorem rep_int (k : ℤ) (hk : |k| ≤ 2 ^ 53) : Rep (k : ℚ) :=
  ⟨k, 0, hk, by simp⟩

theorem ofInt_exact (k : ℤ) (hk : |k| ≤ 2 ^ 53) : ofInt k = k :=
  round_of_rep _ (rep_int k hk)

/-- Rounding keeps a value between two integers of at most 53 bits. -/
theorem round_between {x : ℚ} {a b : ℤ} (ha : |a| ≤ 2 ^ 53) (hb : |b| ≤ 2 ^ 53)
    (h1 : (a : ℚ) ≤ x) (h2 : x ≤ b) : (a : ℚ) ≤ round x ∧ round x ≤ b := by
  have e1 := round_of_rep _ (rep_int a ha)
  have e2 := round_of_rep _ (rep_int b hb)
  exact ⟨e1 ▸ round_mono h1, e2 ▸ round_mono h2⟩

end F64

/-! ## The round-trip statistics -/

theorem wrapInt64_of_range (x : Int) (h1 : -(2 ^ 63) ≤ x) (h2 : x < 2 ^ 63) :
    wrapInt64 x = x := by
  unfold wrapInt64
  omega

theorem wrapInt64_add (x y : Int) : wrapInt64 (wrapInt64 x + y) = wrapInt64 (x + y) := by
  unfold wrapInt64
  omega

theorem foldl_step_total (t : List Int) (a : Int × Int × Int) :
    wrapInt64 (t.foldl getTimeStat.step a).1 = wrapInt64 (a.1 + t.sum) ∧
      (t ≠ [] → (t.foldl getTimeStat.step a).1 = wrapInt64 (a.1 + t.sum)) := by
  induction t generalizing a with
  | nil => simp
  | cons v t ih =>
    obtain ⟨h1, h2⟩ := ih (getTimeStat.step a v)
    have e : wrapInt64 ((getTimeStat.step a v).1 + t.sum) = wrapInt64 (a.1 + (v :: t).sum) := by
      simp only [getTimeStat.step, List.sum_cons]
      rw [wrapInt64_add, add_assoc]
    rw [List.foldl_cons]
    refine ⟨h1.trans e, fun _ => ?_⟩
    by_cases ht : t = []
    · subst ht
      simp [getTimeStat.step]
    · rw [h2 ht, e]

theorem foldl_step_min (t : List Int) (a : Int × Int × Int) :
    (t.foldl getTimeStat.step a).2.1 ≤ a.2.1 ∧
      (∀ v ∈ t, (t.foldl getTimeStat.step a).2.1 ≤ v) ∧
      ((t.foldl getTimeStat.step a).2.1 = a.2.1 ∨ (t.foldl getTimeStat.step a).2.1 ∈ t) := by
  induction t generalizing a with
  | nil => simp
  | cons v t ih =>
    obtain ⟨h1, h2, h3⟩ := ih (getTimeStat.step a v)
    rw [List.foldl_cons]
    have hs : (getTimeStat.step a v).2.1 ≤ a.2.1 ∧ (getTimeStat.step a v).2.1 ≤ v ∧
        ((getTimeStat.step a v).2.1 = a.2.1 ∨ (getTimeStat.step a v).2.1 = v) := by
      simp only [getTimeStat.step]
      split_ifs <;> omega
    refine ⟨h1.trans hs.1, ?_, ?_⟩
    · intro w hw
      rcases List.mem_cons.1 hw with rfl | hw
      · exact h1.trans hs.2.1
      · exact h2 w hw
    · rcases h3 with h3 | h3
      · rcases hs.2.2 with h4 | h4
        · exact Or.inl (h3.trans h4)
        · exact Or.inr (by rw [h3, h4]; exact List.mem_cons_self _ _)
      · exact Or.inr (List.mem_cons_of_mem _ h3)

theorem foldl_step_max (t : List Int) (a : Int × Int × Int) :
    a.2.2 ≤ (t.foldl getTimeStat.step a).2.2 ∧
      (∀ v ∈ t, v ≤ (t.foldl getTimeStat.step a).2.2) ∧
      ((t.foldl getTimeStat.step a).2.2 = a.2.2 ∨ (t.foldl getTimeStat.step a).2.2 ∈ t) := by
  induction t generalizing a with
  | nil => simp
  | cons v t ih =>
    obtain ⟨h1, h2, h3⟩ := ih (getTimeStat.step a v)
    rw [List.foldl_cons]
    have hs : a.2.2 ≤ (getTimeStat.step a v).2.2 ∧ v ≤ (getTimeStat.step a v).2.2 ∧
        ((getTimeStat.step a v).2.2 = a.2.2 ∨ (getTimeStat.step a v).2.2 = v) := by
      simp only [getTimeStat.step]
      split_ifs <;> omega
    refine ⟨hs.1.trans h1, ?_, ?_⟩
    · intro w hw
      rcases List.mem_cons.1 hw with rfl | hw
      · exact hs.2.1.trans h1
      · exact h2 w hw
    · rcases h3 with h3 | h3
      · rcases hs.2.2 with h4 | h4
        · exact Or.inl (h3.trans h4)
        · exact Or.inr (by rw [h3, h4]; exact List.mem_cons_self _ _)
      · exact Or.inr (List.mem_cons_of_mem _ h3)

/-- The result of `getTimeStat` on two samples or more. -/
theorem getTimeStat_two (t : List Int) (h2 : 2 ≤ t.length) :
    (getTimeStat t).1 ∈ t ∧ (∀ v ∈ t, (getTimeStat t).1 ≤ v) ∧
    (getTimeStat t).2.1 ∈ t ∧ (∀ v ∈ t, v ≤ (getTimeStat t).2.1) ∧
    (getTimeStat t).2.2 =
      F64.div (F64.floor (F64.mul
        (F64.div (F64.ofInt (wrapInt64 t.sum)) (F64.ofInt t.length)) 100)) 100 := by
  have hne : t ≠ [] := by
    rintro rfl
    simp at h2
  have hl0 : ¬ t.length = 0 := by omega
  have hl1 : ¬ t.length = 1 := by omega
  have hhead : t.headD 0 ∈ t := by
    cases t with
    | nil => exact absurd rfl hne
    | cons v t => simp
  obtain ⟨-, ht⟩ := foldl_step_total t (0, t.headD 0, t.headD 0)
  obtain ⟨-, hmin, hmin2⟩ := foldl_step_min t (0, t.headD 0, t.headD 0)
  obtain ⟨-, hmax, hmax2⟩ := foldl_step_max t (0, t.headD 0, t.headD 0)
  have htot := ht hne
  simp only [zero_add] at htot
  simp only [getTimeStat, if_neg hl0, if_neg hl1]
  refine ⟨?_, hmin, ?_, hmax, ?_⟩
  · rcases hmin2 with h | h
    · rw [h]; exact hhead
    · exact h
  · rcases hmax2 with h | h
    · rw [h]; exact hhead
    · exact h
  · rw [htot]

theorem sum_bounds (t : List Int) (m M : Int) (h : ∀ v ∈ t, m ≤ v ∧ v ≤ M) :
    (t.length : Int) * m ≤ t.sum ∧ t.sum ≤ (t.length : Int) * M := by
  induction t with
  | nil => simp
  | cons v t ih =>
    obtain ⟨h1, h2⟩ := ih (fun w hw => h w (List.mem_cons_of_mem _ hw))
    obtain ⟨h3, h4⟩ := h v (List.mem_cons_self _ _)
    rw [List.length_cons, List.sum_cons]
    push_cast
    constructor <;> linarith

/-- The average of `getTimeStat` lies between the least and the greatest sample
when the samples are within the range in which `float64` is exact. -/
theorem getTimeStat_two_between (t : List Int) (h2 : 2 ≤ t.length)
    (hrange : ∀ v ∈ t, |v| * 100 ≤ 2 ^ 53) (hsum : |t.sum| ≤ 2 ^ 53)
    (hlen : (t.length : Int) ≤ 2 ^ 53) :
    ((getTimeStat t).1 : ℚ) ≤ (getTimeStat t).2.2 ∧
      (getTimeStat t).2.2 ≤ ((getTimeStat t).2.1 : ℚ) := by
  obtain ⟨hm, hmin, hM, hmax, havg⟩ := getTimeStat_two t h2
  set m := (getTimeStat t).1 with hm_def
  set M := (getTimeStat t).2.1 with hM_def
  have hs := abs_le.1 hsum
  rw [wrapInt64_of_range _ (by omega) (by omega)] at havg
  -- bounds on the least and the greatest sample
  have hm1 := hrange m hm
  have hM1 := hrange M hM
  have hm53 : |m| ≤ 2 ^ 53 := by have := abs_nonneg m; omega
  have hM53 : |M| ≤ 2 ^ 53 := by have := abs_nonneg M; omega
  have hm100 : |100 * m| ≤ 2 ^ 53 := by rw [abs_mul]; norm_num; omega
  have hM100 : |100 * M| ≤ 2 ^ 53 := by rw [abs_mul]; norm_num; omega
  -- the exact mean is between them
  obtain ⟨hs1, hs2⟩ := sum_bounds t m M (fun v hv => ⟨hmin v hv, hmax v hv⟩)
  have hn : (0 : ℚ) < (t.length : Int) := by
    have : (0 : Int) < t.length := by omega
    exact_mod_cast this
  have hq1 : (m : ℚ) ≤ (t.sum : ℚ) / ((t.length : Int) : ℚ) := by
    rw [le_div_iff₀ hn]
    have : ((m * (t.length : Int) : Int) : ℚ) ≤ (t.sum : ℚ) := by
      exact_mod_cast (by linarith : m * (t.length : Int) ≤ t.sum)
    exact_mod_cast this
  have hq2 : (t.sum : ℚ) / ((t.length : Int) : ℚ) ≤ (M : ℚ) := by
    rw [div_le_iff₀ hn]
    have : (t.sum : ℚ) ≤ ((M * (t.length : Int) : Int) : ℚ) := by
      exact_mod_cast (by linarith : t.sum ≤ M * (t.length : Int))
    exact_mod_cast this
  -- the four rounded operations
  have e1 : F64.ofInt t.sum = t.sum := F64.ofInt_exact _ hsum
  have e2 : F64.ofInt (t.length : Int) = ((t.length : Int) : ℚ) :=
    F64.ofInt_exact _ (by rw [abs_of_nonneg (by omega)]; exact hlen)
  rw [havg]
  simp only [F64.div, F64.mul, F64.floor, e1, e2]
  obtain ⟨q1, q2⟩ := F64.round_between hm53 hM53 hq1 hq2
  have c1 : ((100 * m : Int) : ℚ) = 100 * (m : ℚ) := by push_cast; ring
  have c2 : ((100 * M : Int) : ℚ) = 100 * (M : ℚ) := by push_cast; ring
  generalize F64.round ((t.sum : ℚ) / ((t.length : Int) : ℚ)) = q at q1 q2 ⊢
  have p1' : ((100 * m : Int) : ℚ) ≤ q * 100 := by rw [c1]; linarith
  have p2' : q * 100 ≤ ((100 * M : Int) : ℚ) := by rw [c2]; linarith
  obtain ⟨p1, p2⟩ := F64.round_between hm100 hM100 p1' p2'
  generalize F64.round (q * 100) = p at p1 p2 ⊢
  have f1 : (100 * m : Int) ≤ ⌊p⌋ := Int.le_floor.2 p1
  have f1' : ((100 * m : Int) : ℚ) ≤ ((⌊p⌋ : Int) : ℚ) := by exact_mod_cast f1
  have f2 : ((⌊p⌋ : Int) : ℚ) ≤ ((100 * M : Int) : ℚ) := (Int.floor_le _).trans p2
  rw [c1] at f1'
  rw [c2] at f2
  have a1 : (m : ℚ) ≤ ((⌊p⌋ : Int) : ℚ) / 100 := by
    rw [le_div_iff₀ (by norm_num)]
    linarith
  have a2 : ((⌊p⌋ : Int) : ℚ) / 100 ≤ (M : ℚ) := by
    rw [div_le_iff₀ (by norm_num)]
    linarith
  exact F64.round_between hm53 hM53 a1 a2

/-- The conversion of `2 ^ 53 + 1` to `float64` is `2 ^ 53`. -/
theorem ofInt_two_pow_53_add_one : F64.ofInt 9007199254740993 = 9007199254740992 := by
  have hlog : Int.log 2 |(9007199254740993 : ℚ)| = 53 := by
    rw [abs_of_pos (by norm_num)]
    have : (9007199254740993 : ℚ) = ((9007199254740993 : ℕ) : ℚ) := by norm_num
    rw [this, Int.log_natCast]
    have := Nat.log_eq_of_pow_le_of_lt_pow (b := 2) (m := 53) (n := 9007199254740993)
      (by norm_num) (by norm_num)
    rw [this]
    rfl
  have hfloor : ⌊(9007199254740993 : ℚ) / 2⌋ = 4503599627370496 := by
    rw [Int.floor_eq_iff]
    constructor <;> norm_num
  have hr : F64.roundHalfEven ((9007199254740993 : ℚ) / 2) = 4503599627370496 := by
    unfold F64.roundHalfEven
    rw [hfloor]
    norm_num
  unfold F64.ofInt
  rw [show ((9007199254740993 : ℤ) : ℚ) = 9007199254740993 by norm_num,
    F64.round_of_ne _ (by norm_num), hlog]
  norm_num
  rw [hr]
  norm_num


theorem sendEcho_ok_times (P : Errnos) (c : config) (s : Stat) (x : Exchange)
    (got : List UInt8) (hw : x.write = none) (hr : x.read = .ok got) :
    (sendEcho P c s x).1.times = s.times ++ [wrapInt64 (x.stop - x.start)] := by
  simp only [sendEcho, hw, hr, printReply]
  split_ifs <;> rfl

/-- C3, as amended. For every non-empty sequence of round-trip times in which
the samples times 100, their sum and their number are at most `2 ^ 53` in
absolute value (the range in which the `float64` operations of `getTimeStat`
keep integers exact), the result satisfies `min ≤ avg ≤ max`; and when no
sample is negative, `min`, `avg` and `max` are all at least 0. -/
theorem getTimeStat_bounds (t : List Int) (hne : t ≠ [])
    (hrange : ∀ v ∈ t, |v| * 100 ≤ 2 ^ 53) (hsum : |t.sum| ≤ 2 ^ 53)
    (hlen : (t.length : Int) ≤ 2 ^ 53) :
    ((getTimeStat t).1 : ℚ) ≤ (getTimeStat t).2.2 ∧
    (getTimeStat t).2.2 ≤ ((getTimeStat t).2.1 : ℚ) ∧
    ((∀ v ∈ t, 0 ≤ v) →
      0 ≤ (getTimeStat t).1 ∧ 0 ≤ (getTimeStat t).2.2 ∧ 0 ≤ (getTimeStat t).2.1) := by
  have key : ((getTimeStat t).1 : ℚ) ≤ (getTimeStat t).2.2 ∧
      (getTimeStat t).2.2 ≤ ((getTimeStat t).2.1 : ℚ) ∧ (getTimeStat t).1 ∈ t := by
    match t, hne with
    | [v], _ =>
      have hv : |v| ≤ 2 ^ 53 := by
        have := hrange v (List.mem_singleton_self v)
        have := abs_nonneg v
        omega
      simp [getTimeStat, F64.ofInt_exact v hv]
    | v :: w :: r, _ =>
      have h2 : 2 ≤ (v :: w :: r).length := by simp
      obtain ⟨h3, h4⟩ := getTimeStat_two_between _ h2 hrange hsum hlen
      exact ⟨h3, h4, (getTimeStat_two _ h2).1⟩
  obtain ⟨k1, k2, k3⟩ := key
  refine ⟨k1, k2, fun hpos => ?_⟩
  have h0 : 0 ≤ (getTimeStat t).1 := hpos _ k3
  have h0' : (0 : ℚ) ≤ ((getTimeStat t).1 : ℚ) := by exact_mod_cast h0
  have h1 : (0 : ℚ) ≤ (getTimeStat t).2.2 := h0'.trans k1
  have h2 : (0 : ℚ) ≤ ((getTimeStat t).2.1 : ℚ) := h1.trans k2
  exact ⟨h0, h1, by exact_mod_cast h2⟩

/-- Witness of C3 as amended: the samples 4, 5, 7. -/
theorem getTimeStat_bounds_witness :
    ((getTimeStat [4, 5, 7]).1 : ℚ) ≤ (getTimeStat [4, 5, 7]).2.2 ∧
    (getTimeStat [4, 5, 7]).2.2 ≤ ((getTimeStat [4, 5, 7]).2.1 : ℚ) ∧
    ((∀ v ∈ [4, 5, 7], (0 : Int) ≤ v) →
      0 ≤ (getTimeStat [4, 5, 7]).1 ∧ 0 ≤ (getTimeStat [4, 5, 7]).2.2 ∧
        0 ≤ (getTimeStat [4, 5, 7]).2.1) :=
  getTimeStat_bounds [4, 5, 7] (by decide) (by decide) (by decide) (by decide)

/-- Counterexample to C3: a reply whose clock reading after the read is below
the one after the write gives a negative round-trip time, and on the sequence
`[-1]` the three results of `getTimeStat` are negative; and on the single
sample `2 ^ 53 + 1` the average `float64(2 ^ 53 + 1) = 2 ^ 53` is below the
minimum. -/
theorem getTimeStat_negative_sample :
    (sendEcho linux { pattern := [80] } ⟨"10.0.0.1:7", [], 0, 0, 0⟩
        ⟨none, 5, .ok [80], 3⟩).1.times = [-2] ∧
    getTimeStat [-1] = (-1, -1, -1) ∧
    getTimeStat [9007199254740993] = (9007199254740993, 9007199254740993, 9007199254740992) ∧
    ¬ (∀ t : List Int, t ≠ [] →
        ((getTimeStat t).1 : ℚ) ≤ (getTimeStat t).2.2 ∧
        (getTimeStat t).2.2 ≤ ((getTimeStat t).2.1 : ℚ) ∧
        0 ≤ (getTimeStat t).1 ∧ 0 ≤ (getTimeStat t).2.2 ∧ 0 ≤ (getTimeStat t).2.1) := by
  have h1 : getTimeStat [-1] = (-1, -1, -1) := by
    have := F64.ofInt_exact (-1) (by decide)
    simp [getTimeStat, this]
  refine ⟨?_, h1, ?_, fun h => ?_⟩
  · rw [sendEcho_ok_times linux _ _ _ [80] rfl rfl]
    decide
  · simp [getTimeStat, ofInt_two_pow_53_add_one]
  · have h2 := (h [-1] (by decide)).2.2.1
    rw [h1] at h2
    exact absurd h2 (by decide)

namespace F64

end F64

namespace time

theorem leadingInt_length (s : List Char) (x v : Nat) (r : List Char)
    (h : leadingInt x s = some (v, r)) : r.length ≤ s.length := by
  induction s generalizing x with
  | nil =>
    simp only [leadingInt, Option.some.injEq, Prod.mk.injEq] at h
    rw [← h.2]
  | cons c s ih =>
    rw [leadingInt] at h
    split_ifs at h
    · simp only [Option.some.injEq, Prod.mk.injEq] at h
      rw [← h.2]
    · have := ih _ h
      simp only [List.length_cons]
      omega

theorem leadingFraction_length (s : List Char) (x : Nat) (scale : ℚ) (overflow : Bool) :
    (leadingFraction x scale overflow s).2.2.length ≤ s.length := by
  induction s generalizing x scale overflow with
  | nil => simp [leadingFraction]
  | cons c s ih =>
    rw [leadingFraction]
    split_ifs
    · exact le_refl _
    all_goals
      simp only [List.length_cons]
      exact Nat.le_succ_of_le (ih _ _ _)

theorem fraction_length (s1 : List Char) :
    (ParseDuration.fraction s1).2.2.1.length ≤ s1.length := by
  unfold ParseDuration.fraction
  split
  · rename_i s2
    have := leadingFraction_length s2 0 1 false
    simp only [List.length_cons]
    omega
  · exact le_refl _

/-- A round of the loop leaves a shorter string. -/
theorem iter_length (d : Nat) (s : List Char) (d1 : Nat) (s4 : List Char)
    (h : ParseDuration.iter d s = .ok (d1, s4)) : s4.length < s.length := by
  unfold ParseDuration.iter at h
  split at h
  · exact Except.noConfusion h
  · rename_i c0 t
    split_ifs at h
    split at h
    · exact Except.noConfusion h
    · rename_i v s1 hint
      have hs1 := leadingInt_length _ _ _ _ hint
      have hs3 := fraction_length s1
      dsimp only at h
      generalize ParseDuration.fraction s1 = frac at h hs3
      split_ifs at h with h1 h2
      split at h
      · exact Except.noConfusion h
      · split at h
        · exact Except.noConfusion h
        · simp only [Except.ok.injEq, Prod.mk.injEq] at h
          have hlen := congrArg List.length
            (List.takeWhile_append_dropWhile (fun c => ¬ endsUnit c) frac.2.2.1)
          rw [List.length_append] at hlen
          rw [← h.2]
          omega

/-- The result of the loop does not depend on the fuel above the length of the
string. -/
theorem loop_fuel (fuel fuel1 d : Nat) (s : List Char) (h : s.length < fuel)
    (h1 : s.length < fuel1) : ParseDuration.loop fuel d s = ParseDuration.loop fuel1 d s := by
  induction fuel generalizing fuel1 d s with
  | zero => omega
  | succ n ih =>
    cases fuel1 with
    | zero => omega
    | succ n1 =>
      rw [ParseDuration.loop, ParseDuration.loop]
      split_ifs
      · rfl
      · rcases hi : ParseDuration.iter d s with e | ⟨d1, s4⟩
        · rfl
        · have := iter_length d s d1 s4 hi
          exact ih n1 d1 s4 (by omega) (by omega)

end time

namespace F64

end F64

end EchoTool
